import Mathlib

/-!
Verification of the "sistema-de-filtro" repository against its
natural-language specification.

The development shallowly embeds the JavaScript source:

* strings are modelled as lists of characters (`Str`);
* the name normalisation `formatearNombre` (src/utils/formatNombre.js)
  is translated operation by operation (uppercase, trim, whitespace and
  comma collapsing, splitting and joining), with the ASCII fragment of
  the JavaScript whitespace class;
* the relationship scraper `EjzagetroScraper.validarMultiplesDNIs`
  (src/scrapers/ejzagetroScraper.js) is parametrised by an oracle
  describing the outcome of each external page lookup, indexed by call
  position so that two lookups of the same identifier may disagree;
* the orchestration `FiltroService.procesarRUC`
  (src/services/filtroService.js) and the comparison service
  `ComparacionDNIService` (src/services/comparacionDNIService.js) are
  translated as pure functions of the settled scraper outcomes and the
  lookup oracle.

JavaScript truthiness on the modelled record fields is rendered by
letting an absent (`undefined`) boolean field be `false` and an absent
or empty string be the empty list, which is observationally equivalent
for every use the source makes of those fields.
-/

namespace SistemaFiltro

/-- Strings of the JavaScript source, modelled as lists of characters. -/
abbrev Str := List Char

/-- ASCII fragment of the JavaScript whitespace character class used by
the regular expression replacement and by trimming in formatNombre.js. -/
def esEspacio (c : Char) : Bool :=
  c == ' ' || c == '\t' || c == '\n' || c == '\r'

/-- Model of the JavaScript string trim: drop whitespace on both ends. -/
def recortar (l : Str) : Str :=
  ((l.dropWhile esEspacio).reverse.dropWhile esEspacio).reverse

/-- Replacement of every maximal run of characters satisfying `p` by the
single character `r`: the Boolean argument records whether the previous
character belonged to a run. -/
def colapsarAux (p : Char → Bool) (r : Char) : Bool → Str → Str
  | _, [] => []
  | enRun, c :: cs =>
    if p c then
      if enRun then colapsarAux p r true cs
      else r :: colapsarAux p r true cs
    else c :: colapsarAux p r false cs

/-- Model of the replacement of every maximal whitespace run by a single
space (formatNombre.js line 23). -/
def colapsarEspacios (l : Str) : Str :=
  colapsarAux esEspacio ' ' false l

/-- Model of the replacement of every maximal comma run by a single
comma (formatNombre.js line 24). -/
def colapsarComas (l : Str) : Str :=
  colapsarAux (· == ',') ',' false l

/-- Model of the JavaScript split on a single separator character;
splitting the empty string yields one empty piece, as in JavaScript. -/
def separarEn (sep : Char) : Str → List Str
  | [] => [[]]
  | c :: cs =>
    if c == sep then [] :: separarEn sep cs
    else
      match separarEn sep cs with
      | [] => [[c]]
      | t :: ts => (c :: t) :: ts

/-- Model of the JavaScript array join with a fixed separator. -/
def unirCon (sep : Str) : List Str → Str
  | [] => []
  | [p] => p
  | p :: resto => p ++ sep ++ unirCon sep resto

/-- The cleaning pipeline of formatNombre.js lines 20-24: uppercase,
trim, collapse whitespace runs, collapse comma runs. -/
def limpiarNombre (l : Str) : Str :=
  colapsarComas (colapsarEspacios (recortar (l.map Char.toUpper)))

/-- The comma-branch processing of formatNombre.js lines 29-33: split
on commas, trim every part, drop the empty parts. -/
def partesNombre (l : Str) : List Str :=
  ((separarEn ',' l).map recortar).filter (fun p => !p.isEmpty)

/-- Translation of `formatearNombre` (src/utils/formatNombre.js): a
falsy (empty) input is returned unchanged; a cleaned name containing a
comma has its comma-separated parts trimmed, purged of empty parts and
re-joined with a comma and a space; otherwise the cleaned name is
returned as-is when it has at most two words and gets a comma inserted
after the first two words when it has more. -/
def formatearNombre (l : Str) : Str :=
  if l = [] then l
  else
    let nombreLimpio := limpiarNombre l
    if nombreLimpio.contains ',' then
      unirCon [',', ' '] (partesNombre nombreLimpio)
    else
      let palabras := separarEn ' ' nombreLimpio
      if palabras.length ≤ 2 then nombreLimpio
      else
        unirCon [' '] (palabras.take 2) ++ [',', ' '] ++
          unirCon [' '] (palabras.drop 2)

/-- Decimal digit test, model of the character class matching digits. -/
def esDigito (c : Char) : Bool :=
  '0' ≤ c && c ≤ '9'

/-- Outcome of `validarFormatoRUC` (filtroService.js lines 691-710). -/
structure ValidezRUC where
  valido : Bool
  mensaje : Str
deriving DecidableEq

/-- Translation of `FiltroService.validarFormatoRUC`: the input must be
a non-empty string whose trimmed form has exactly 11 digits and starts
with one of the whitelisted two-digit prefixes. -/
def validarFormatoRUC (ruc : Str) : ValidezRUC :=
  if ruc = [] then
    { valido := false, mensaje := "El RUC es requerido".toList }
  else
    let rucLimpio := recortar ruc
    if !(rucLimpio.length == 11 && rucLimpio.all esDigito) then
      { valido := false,
        mensaje := "El RUC debe tener exactamente 11 dígitos numéricos".toList }
    else if !([("10".toList), ("15".toList), ("17".toList), ("20".toList)].contains
        (rucLimpio.take 2)) then
      { valido := false,
        mensaje := "El RUC debe comenzar con 10, 15, 17, o 20".toList }
    else { valido := true, mensaje := [] }

/-- Raw outcome of one successful external page lookup on the family
registry (the `page.evaluate` block of ejzagetroScraper.js). -/
structure Busqueda where
  encontrado : Bool
  esFamiliar : Bool
  nombrePersona : Str
  nombreFamiliar : Str
  dniFamiliar : Str
  parentesco : Str
deriving DecidableEq

/-- One entry of the list returned by `validarMultiplesDNIs`.  A failed
lookup yields an object with only `dni`, `error` and `mensaje`; reading
the absent fields gives `undefined`, which every consumer treats as
`false` or as an empty string, so the model stores those defaults. -/
structure Validacion where
  dni : Str
  encontrado : Bool
  esFamiliar : Bool
  nombrePersona : Str
  nombreFamiliar : Str
  dniFamiliar : Str
  parentesco : Str
  error : Bool
  mensaje : Str
deriving DecidableEq

/-- Oracle describing the external lookups: given the position of the
call in the current queue and the queried identifier, either the data
scraped from the page or a thrown error message.  Indexing by position
lets two lookups of the same identifier disagree, as real scraping
can. -/
abbrev Oraculo := Nat → Str → Except Str Busqueda

/-- Post-processing of a successful lookup done by `buscarDNI`
(ejzagetroScraper.js lines 126-134): attach the queried identifier and
format the non-empty names. -/
def resultadoBusqueda (dni : Str) (b : Busqueda) : Validacion :=
  { dni := dni
    encontrado := b.encontrado
    esFamiliar := b.esFamiliar
    nombrePersona :=
      if b.nombrePersona.isEmpty then b.nombrePersona else formatearNombre b.nombrePersona
    nombreFamiliar :=
      if b.nombreFamiliar.isEmpty then b.nombreFamiliar else formatearNombre b.nombreFamiliar
    dniFamiliar := b.dniFamiliar
    parentesco := b.parentesco
    error := false
    mensaje := [] }

/-- The catch branch of `validarMultiplesDNIs` (ejzagetroScraper.js
lines 168-175): a thrown lookup is converted into an error entry. -/
def resultadoErrorDNI (dni : Str) (msg : Str) : Validacion :=
  { dni := dni, encontrado := false, esFamiliar := false, nombrePersona := [],
    nombreFamiliar := [], dniFamiliar := [], parentesco := [], error := true,
    mensaje := msg }

/-- The sequential loop of `EjzagetroScraper.validarMultiplesDNIs`,
carrying the position of the next external call. -/
def validarMultiplesDNIsDesde (buscar : Oraculo) : Nat → List Str → List Validacion
  | _, [] => []
  | i, dni :: resto =>
    (match buscar i dni with
     | .ok b => resultadoBusqueda dni b
     | .error m => resultadoErrorDNI dni m) :: validarMultiplesDNIsDesde buscar (i + 1) resto

/-- Translation of `EjzagetroScraper.validarMultiplesDNIs`
(ejzagetroScraper.js lines 158-179). -/
def validarMultiplesDNIs (buscar : Oraculo) (dnis : List Str) : List Validacion :=
  validarMultiplesDNIsDesde buscar 0 dnis

/-- One representative tuple returned by a source scraper. -/
structure Representante where
  dni : Str
  nombre : Str
deriving DecidableEq

/-- Normalized data one source scraper returns for an organization. -/
structure DatosFuente where
  razonSocial : Str
  dnis : List Str
  representantes : List Representante
deriving DecidableEq

/-- Outcome of one settled promise from `Promise.allSettled`. -/
inductive Settled (α : Type) where
  | fulfilled (valor : α)
  | rejected (razon : Str)
deriving DecidableEq

/-- One entry of `personasDetalladas`.  The three optional fields are
attached during the decision step; before it they are absent. -/
structure Persona where
  dni : Str
  nombre : Str
  fuentes : List Str
  razonSocial : Str
  esFamiliar : Option Bool := none
  encontrado : Option Bool := none
  nombrePersona : Option Str := none
deriving DecidableEq

/-- Record inserted for a SUNAT representative (filtroService.js lines
793-800): the name is formatted only when non-empty. -/
def personaDesdeSunat (rs : Str) (rep : Representante) : Persona :=
  { dni := rep.dni
    nombre := if rep.nombre.isEmpty then rep.nombre else formatearNombre rep.nombre
    fuentes := ["SUNAT".toList]
    razonSocial := rs }

/-- Record inserted for an OSCE representative absent from the map
(filtroService.js lines 813-818). -/
def personaDesdeOsce (rs : Str) (rep : Representante) : Persona :=
  { dni := rep.dni
    nombre := if rep.nombre.isEmpty then rep.nombre else formatearNombre rep.nombre
    fuentes := ["OSCE".toList]
    razonSocial := rs }

/-- `Map.set` on the insertion-ordered map keyed by identifier: replace
the entry in place when the key exists, append otherwise. -/
def fijarPersona : List Persona → Persona → List Persona
  | [], p => [p]
  | q :: resto, p => if q.dni == p.dni then p :: resto else q :: fijarPersona resto p

/-- `Map.get`-style lookup on the insertion-ordered map. -/
def buscarPersona (m : List Persona) (d : Str) : Option Persona :=
  m.find? (fun q => q.dni == d)

/-- The update of an existing map entry when OSCE corroborates an
identifier (filtroService.js lines 806-811): push the OSCE tag and
adopt the formatted OSCE name when the stored name is empty. -/
def actualizarConOsce : List Persona → Representante → List Persona
  | [], _ => []
  | q :: resto, rep =>
    if q.dni == rep.dni then
      { q with
        fuentes := q.fuentes ++ ["OSCE".toList],
        nombre :=
          if q.nombre.isEmpty && !rep.nombre.isEmpty then formatearNombre rep.nombre
          else q.nombre } :: resto
    else q :: actualizarConOsce resto rep

/-- Processing of one OSCE representative against the map
(filtroService.js lines 805-820). -/
def pasoOsce (rs : Str) (m : List Persona) (rep : Representante) : List Persona :=
  if (buscarPersona m rep.dni).isSome then actualizarConOsce m rep
  else m ++ [personaDesdeOsce rs rep]

/-- The `personasMap` construction of filtroService.js lines 788-823:
insert every SUNAT representative, then merge every OSCE
representative, and read the map values in insertion order. -/
def construirPersonas (detallesSunat detallesOsce : Option DatosFuente) : List Persona :=
  let conSunat :=
    match detallesSunat with
    | some d =>
      d.representantes.foldl (fun m rep => fijarPersona m (personaDesdeSunat d.razonSocial rep)) []
    | none => []
  match detallesOsce with
  | some d => d.representantes.foldl (pasoOsce d.razonSocial) conSunat
  | none => conSunat

/-- The OSCE deduplicating push of filtroService.js lines 769-773: add
each new identifier only when not already collected. -/
def agregarDNIsUnicos (acumulados : List Str) (nuevos : List Str) : List Str :=
  nuevos.foldl (fun acc d => if acc.contains d then acc else acc ++ [d]) acumulados

/-- The mutation of the matching `personasDetalladas` entry during the
decision step (filtroService.js lines 832-837): the first record with
the validated identifier receives the validation fields. -/
def actualizarPersonaValidada : List Persona → Validacion → List Persona
  | [], _ => []
  | p :: resto, v =>
    if p.dni == v.dni then
      { p with
        esFamiliar := some v.esFamiliar,
        encontrado := some v.encontrado,
        nombrePersona := some v.nombrePersona } :: resto
    else p :: actualizarPersonaValidada resto v

/-- The decision loop of filtroService.js lines 830-844: update the
detailed records and route every identifier into the rejected list when
its validation is flagged as family, into the approved list
otherwise. -/
def paso4 (personas : List Persona) (vs : List Validacion) :
    List Persona × List Str × List Str :=
  vs.foldl
    (fun acc v =>
      ( actualizarPersonaValidada acc.1 v,
        if v.esFamiliar then acc.2.1 ++ [v.dni] else acc.2.1,
        if v.esFamiliar then acc.2.2 else acc.2.2 ++ [v.dni] ))
    (personas, [], [])

/-- Rejection reason used when no identifier was collected
(filtroService.js line 781). -/
def mensajeSinDNIs : Str :=
  "RUC no encontrado o no registrado en SUNAT/OSCE".toList

/-- Rejection reason used when family links were detected
(filtroService.js line 849), parametrised by the rejected count. -/
def mensajeFamiliares (n : Nat) : Str :=
  "Se encontraron ".toList ++ (Nat.repr n).toList ++
    " DNI(s) con familiares registrados".toList

/-- The aggregation result assembled by `procesarRUC`. -/
structure Resultado where
  ruc : Str
  aprobado : Bool
  razonSocial : Str
  dnisTotales : List Str
  dnisConFamiliares : List Str
  dnisAprobados : List Str
  motivoRechazo : Option Str
  detallesSunat : Option DatosFuente
  detallesOsce : Option DatosFuente
  validacionesDNI : List Validacion
  personasDetalladas : List Persona
deriving DecidableEq

/-- The freshly initialised result object (filtroService.js lines
722-735). -/
def resultadoInicial (ruc : Str) : Resultado :=
  { ruc := ruc, aprobado := true, razonSocial := [], dnisTotales := [],
    dnisConFamiliares := [], dnisAprobados := [], motivoRechazo := none,
    detallesSunat := none, detallesOsce := none, validacionesDNI := [],
    personasDetalladas := [] }

/-- The settled-outcome processing of filtroService.js lines 748-776:
a fulfilled SUNAT result contributes its company name and identifiers,
a fulfilled OSCE result contributes its company name as a fallback and
its identifiers deduplicated against the collected ones. -/
def resultadoFuentes (datosSunat datosOsce : Settled DatosFuente) (ruc : Str) : Resultado :=
  let r0 := resultadoInicial ruc
  let r1 :=
    match datosSunat with
    | .fulfilled d =>
      { r0 with
        detallesSunat := some d, razonSocial := d.razonSocial,
        dnisTotales := r0.dnisTotales ++ d.dnis }
    | .rejected _ => r0
  match datosOsce with
  | .fulfilled d =>
    { r1 with
      detallesOsce := some d,
      razonSocial := if r1.razonSocial.isEmpty then d.razonSocial else r1.razonSocial,
      dnisTotales := agregarDNIsUnicos r1.dnisTotales d.dnis }
  | .rejected _ => r1

/-- Translation of `FiltroService.procesarRUC` (filtroService.js lines
717-870), parametrised by the settled outcomes of the two concurrent
source scrapers and by the lookup oracle.  The internal `catch` branch
has no counterpart because the modelled body cannot throw. -/
def procesarRUC (buscar : Oraculo) (datosSunat datosOsce : Settled DatosFuente)
    (ruc : Str) : Resultado :=
  let r0 := resultadoInicial ruc
  let validez := validarFormatoRUC ruc
  if !validez.valido then
    { r0 with aprobado := false, motivoRechazo := some validez.mensaje }
  else
    let r2 := resultadoFuentes datosSunat datosOsce ruc
    if r2.dnisTotales.length == 0 then
      { r2 with aprobado := false, motivoRechazo := some mensajeSinDNIs }
    else
      let personas := construirPersonas r2.detallesSunat r2.detallesOsce
      let validaciones := validarMultiplesDNIs buscar r2.dnisTotales
      let analizado := paso4 personas validaciones
      let r3 :=
        { r2 with
          personasDetalladas := analizado.1,
          validacionesDNI := validaciones,
          dnisConFamiliares := analizado.2.1,
          dnisAprobados := analizado.2.2 }
      if analizado.2.1.length > 0 then
        { r3 with
          aprobado := false,
          motivoRechazo := some (mensajeFamiliares analizado.2.1.length) }
      else { r3 with aprobado := true }

/-- One entry of `dnisValidados` in the comparison service
(comparacionDNIService.js lines 39-47): empty optional strings are
stored as `null`. -/
structure Validado where
  dni : Str
  encontrado : Bool
  esFamiliar : Bool
  nombrePersona : Option Str
  parentesco : Option Str
  nombreFamiliar : Option Str
  dniFamiliar : Option Str
deriving DecidableEq

/-- The `x || null` idiom: an empty string becomes `null`. -/
def opcionDe (s : Str) : Option Str :=
  if s.isEmpty then none else some s

/-- Conversion of one lookup result into a `dnisValidados` entry. -/
def validadoDe (v : Validacion) : Validado :=
  { dni := v.dni, encontrado := v.encontrado, esFamiliar := v.esFamiliar,
    nombrePersona := opcionDe v.nombrePersona, parentesco := opcionDe v.parentesco,
    nombreFamiliar := opcionDe v.nombreFamiliar, dniFamiliar := opcionDe v.dniFamiliar }

/-- The validation loop of `compararDNIs` (comparacionDNIService.js
lines 34-57): it calls `buscarDNI` directly, without a `try`, so a
thrown lookup aborts the whole comparison. -/
def validarTodosDesde (buscar : Oraculo) : Nat → List Str → Except Str (List Validado)
  | _, [] => .ok []
  | i, dni :: resto =>
    match buscar i dni with
    | .error m => .error m
    | .ok b =>
      match validarTodosDesde buscar (i + 1) resto with
      | .error m => .error m
      | .ok vs => .ok (validadoDe (resultadoBusqueda dni b) :: vs)

/-- One emitted family link (comparacionDNIService.js lines 132-139). -/
structure Vinculo where
  dni1 : Str
  nombre1 : Str
  dni2 : Str
  nombre2 : Str
  tipoRelacion : Str
  direccion : Str
deriving DecidableEq

/-- The `dniMap` object lookup: later assignments win. -/
def mapaValidados (vs : List Validado) (d : Str) : Option Validado :=
  vs.reverse.find? (fun v => v.dni == d)

/-- Construction of one emitted link (comparacionDNIService.js lines
132-139), with the documented name fallbacks. -/
def nuevoVinculo (validados : List Validado) (p1 : Validado) (df : Str) : Vinculo :=
  { dni1 := p1.dni
    nombre1 := p1.nombrePersona.getD ("Nombre no disponible".toList)
    dni2 := df
    nombre2 :=
      match p1.nombreFamiliar with
      | some n => n
      | none =>
        match (mapaValidados validados df).bind (fun v => v.nombrePersona) with
        | some n => n
        | none => "Nombre no disponible".toList
    tipoRelacion := p1.parentesco.getD ("Familiar".toList)
    direccion :=
      p1.dni ++ " es ".toList ++ p1.parentesco.getD ("familiar de".toList) ++ [' '] ++ df }

/-- The duplicate scan of comparacionDNIService.js lines 126-129: an
already-emitted link equal to the pair in either orientation. -/
def vinculoRepetido (vinculos : List Vinculo) (a b : Str) : Bool :=
  vinculos.any (fun v => (v.dni1 == a && v.dni2 == b) || (v.dni1 == b && v.dni2 == a))

/-- Body of one iteration of `detectarVinculos` for the current person
(comparacionDNIService.js lines 113-142). -/
def pasoVinculo (validados : List Validado) (dnisList : List Str)
    (vinculos : List Vinculo) (p1 : Validado) : List Vinculo :=
  if !p1.encontrado || !p1.esFamiliar then vinculos
  else
    match p1.dniFamiliar with
    | none => vinculos
    | some df =>
      if dnisList.contains df then
        if vinculoRepetido vinculos p1.dni df then vinculos
        else vinculos ++ [nuevoVinculo validados p1 df]
      else vinculos

/-- Translation of `ComparacionDNIService.detectarVinculos`
(comparacionDNIService.js lines 103-145). -/
def detectarVinculos (validados : List Validado) (dnisList : List Str) : List Vinculo :=
  validados.foldl (pasoVinculo validados dnisList) []

/-- The summary block of `compararDNIs` (comparacionDNIService.js lines
24-29 and 64-74).  The without-links count is computed by subtraction
on JavaScript numbers, hence an integer in the model. -/
structure Resumen where
  totalVinculos : Nat
  dnisConVinculos : Nat
  dnisSinVinculos : Int
  dnisSinDatos : Nat
deriving DecidableEq

/-- The comparison result assembled by `compararDNIs`. -/
structure Comparacion where
  totalDNIs : Nat
  dnisValidados : List Validado
  vinculosEncontrados : List Vinculo
  resumen : Resumen
deriving DecidableEq

/-- `Set.add` on the insertion-ordered set of identifiers. -/
def agregarAlConjunto (s : List Str) (x : Str) : List Str :=
  if s.contains x then s else s ++ [x]

/-- The set of both endpoints of all emitted links
(comparacionDNIService.js lines 66-70 and 153-157). -/
def conjuntoConVinculos (vinculos : List Vinculo) : List Str :=
  vinculos.foldl (fun s v => agregarAlConjunto (agregarAlConjunto s v.dni1) v.dni2) []

/-- Translation of `ComparacionDNIService.compararDNIs`
(comparacionDNIService.js lines 16-95). -/
def compararDNIs (buscar : Oraculo) (dnis : List Str) : Except Str Comparacion :=
  match validarTodosDesde buscar 0 dnis with
  | .error m => .error m
  | .ok validados =>
    let vinculos := detectarVinculos validados dnis
    let conVinculos := conjuntoConVinculos vinculos
    let sinDatos := (validados.filter (fun v => !v.encontrado)).length
    .ok
      { totalDNIs := dnis.length
        dnisValidados := validados
        vinculosEncontrados := vinculos
        resumen :=
          { totalVinculos := vinculos.length
            dnisConVinculos := conVinculos.length
            dnisSinVinculos := (dnis.length : Int) - conVinculos.length - sinDatos
            dnisSinDatos := sinDatos } }

/-- The report shape of `ComparacionDNIService.generarReporte`. -/
structure Reporte where
  hayVinculos : Bool
  totalDNIs : Nat
  totalVinculos : Nat
  dnisConVinculos : List Str
  dnisSinVinculos : List Str
  dnisSinDatos : List Str
  vinculos : List Vinculo
  mensaje : Str
deriving DecidableEq

/-- Translation of `ComparacionDNIService.generarReporte`
(comparacionDNIService.js lines 152-176). -/
def generarReporte (resultado : Comparacion) : Reporte :=
  let conVinculos := conjuntoConVinculos resultado.vinculosEncontrados
  { hayVinculos := !resultado.vinculosEncontrados.isEmpty
    totalDNIs := resultado.totalDNIs
    totalVinculos := resultado.vinculosEncontrados.length
    dnisConVinculos := conVinculos
    dnisSinVinculos :=
      (resultado.dnisValidados.filter
        (fun v => v.encontrado && !conVinculos.contains v.dni)).map (fun v => v.dni)
    dnisSinDatos :=
      (resultado.dnisValidados.filter (fun v => !v.encontrado)).map (fun v => v.dni)
    vinculos := resultado.vinculosEncontrados
    mensaje :=
      if !resultado.vinculosEncontrados.isEmpty then
        "⚠️ Se encontraron ".toList ++ (Nat.repr resultado.vinculosEncontrados.length).toList ++
          " vínculo(s) familiar(es) entre los DNIs".toList
      else "✅ No se encontraron vínculos familiares entre los DNIs".toList }

/-- Person-identifier format test of server.js line 248: exactly 8
digits. -/
def esDNIValido (d : Str) : Bool :=
  d.length == 8 && d.all esDigito

/-- Response of the POST /api/comparar-dnis endpoint, restricted to a
well-typed array body (the missing-field and non-array guards of
server.js lines 214-229 are outside the typed model). -/
inductive Respuesta where
  | invalido (status : Nat) (mensaje : Str)
  | procesado (reporte : Reporte) (detalles : Comparacion)
deriving DecidableEq

/-- Translation of the /api/comparar-dnis handler (server.js lines
232-281): empty check, raw minimum-count check, per-entry format check,
deduplication, then the comparison service. -/
def compararDNIsEndpoint (buscar : Oraculo) (dnis : List Str) : Respuesta :=
  if dnis.length == 0 then
    .invalido 400 ("Debe proporcionar al menos un DNI".toList)
  else if dnis.length < 2 then
    .invalido 400 ("Debe proporcionar al menos 2 DNIs para comparar".toList)
  else if !((dnis.filter (fun d => !esDNIValido d)).isEmpty) then
    .invalido 400 ("Algunos DNIs tienen formato inválido (deben ser 8 dígitos)".toList)
  else
    let dnisUnicos := agregarDNIsUnicos [] dnis
    match compararDNIs buscar dnisUnicos with
    | .error _ => .invalido 500 ("Error interno del servidor".toList)
    | .ok resultado => .procesado (generarReporte resultado) resultado

/-! ### Concrete inputs used by witnesses and counterexamples -/

/-- Example organization identifier with a valid format. -/
def rucEjemplo : Str := "20123456789".toList

/-- Oracle whose lookups always succeed and never report a relation. -/
def oraculoSinFamiliar : Oraculo := fun _ _ =>
  .ok { encontrado := true, esFamiliar := false, nombrePersona := [],
        nombreFamiliar := [], dniFamiliar := [], parentesco := [] }

/-- Oracle whose lookups always throw. -/
def oraculoFalla : Oraculo := fun _ _ => .error ("fallo de red".toList)

/-- Example fulfilled source outcome with one representative. -/
def fuenteEjemplo : DatosFuente :=
  { razonSocial := "ACME SAC".toList,
    dnis := ["11111111".toList],
    representantes := [{ dni := "11111111".toList, nombre := "PEREZ QUISPE JUAN".toList }] }

/-! ### Claim C2 -/

/-- Whether the endpoint answered with a validation or internal error. -/
def esInvalido : Respuesta → Bool
  | .invalido _ _ => true
  | .procesado _ _ => false

/-- Number of relationship lookups the endpoint performed: the
validation loop of `compararDNIs` calls `buscarDNI` exactly once per
entry of `dnisValidados`, and an early validation return performs
none. -/
def busquedasRealizadas : Respuesta → Nat
  | .invalido _ _ => 0
  | .procesado _ det => det.dnisValidados.length

/-! ### Claim C9 -/

/-- Two links are not permutations of the same unordered pair. -/
def paresDistintos (v w : Vinculo) : Prop :=
  ¬(v.dni1 = w.dni1 ∧ v.dni2 = w.dni2) ∧ ¬(v.dni1 = w.dni2 ∧ v.dni2 = w.dni1)

/-! ### Claim C3 -/

/-- Projection of the comparison outcome to its success value. -/
def comparacionDe : Except Str Comparacion → Option Comparacion
  | .ok c => some c
  | .error _ => none

/-- Oracle for the counterexample: the first identifier is found with a
relation pointing at the second, whose own lookup has no data. -/
def oraculoVinculo : Oraculo := fun _ d =>
  if d = "11111111".toList then
    .ok { encontrado := true, esFamiliar := true, nombrePersona := [],
          nombreFamiliar := [], dniFamiliar := "22222222".toList,
          parentesco := "HERMANO".toList }
  else
    .ok { encontrado := false, esFamiliar := false, nombrePersona := [],
          nombreFamiliar := [], dniFamiliar := [], parentesco := [] }

/-- Oracle for the witness: both identifiers are found, the first with
a relation pointing at the second. -/
def oraculoVinculoEncontrado : Oraculo := fun _ d =>
  if d = "11111111".toList then
    .ok { encontrado := true, esFamiliar := true, nombrePersona := [],
          nombreFamiliar := [], dniFamiliar := "22222222".toList,
          parentesco := "HERMANO".toList }
  else
    .ok { encontrado := true, esFamiliar := false, nombrePersona := [],
          nombreFamiliar := [], dniFamiliar := [], parentesco := [] }

/-- Deduplicated two-identifier input list. -/
def parDNIs : List Str := ["11111111".toList, "22222222".toList]

/-- Default empty comparison used only to extract the witness value. -/
def comparacionVacia : Comparacion :=
  { totalDNIs := 0, dnisValidados := [], vinculosEncontrados := [],
    resumen := { totalVinculos := 0, dnisConVinculos := 0,
                 dnisSinVinculos := 0, dnisSinDatos := 0 } }

/-- Concrete comparison produced by the witness oracle. -/
def comparacionTestigo : Comparacion :=
  (comparacionDe (compararDNIs oraculoVinculoEncontrado parDNIs)).getD comparacionVacia

/-- The merged record a SUNAT-only phase leaves for an identifier all of
whose SUNAT tuples carry an empty name. -/
def personaSunatVacia (d rs : Str) : Persona :=
  { dni := d, nombre := [], fuentes := ["SUNAT".toList], razonSocial := rs }

/-- SUNAT outcome for the C8 witness: the identifier with empty name. -/
def fuenteSunatC8 : DatosFuente :=
  { razonSocial := "ACME SAC".toList,
    dnis := ["33333333".toList],
    representantes := [{ dni := "33333333".toList, nombre := [] }] }

/-- OSCE outcome for the C8 witness: the same identifier with a name. -/
def fuenteOsceC8 : DatosFuente :=
  { razonSocial := "ACME".toList,
    dnis := ["33333333".toList],
    representantes := [{ dni := "33333333".toList, nombre := "luna torres rosa maria".toList }] }

/-! ### Claim C7: chain invariants of the cleaning pipeline -/

/-- No two adjacent whitespace characters. -/
def RelEspacios (a b : Char) : Prop := ¬(esEspacio a = true ∧ esEspacio b = true)

/-- No two adjacent commas. -/
def RelComas (a b : Char) : Prop := ¬(a = ',' ∧ b = ',')

/-! ### Claim C7: the shape of normalized outputs -/

/-- A word of a well-formed output: non-empty, with uppercase-fixed,
non-whitespace, non-comma characters. -/
def PalabraBuena (w : Str) : Prop :=
  w ≠ [] ∧ ∀ c ∈ w, Char.toUpper c = c ∧ esEspacio c = false ∧ (c == ',') = false

/-- A part of a well-formed output: one or more good words joined by
single spaces. -/
def ParteBuena (p : Str) : Prop :=
  ∃ ws, ws ≠ [] ∧ (∀ w ∈ ws, PalabraBuena w) ∧ p = unirCon [' '] ws

/-- A part of at most two space-separated words. -/
def ParteCorta (p : Str) : Prop := (separarEn ' ' p).length ≤ 2

/-- The inputs on which formatNombre.js is not idempotent: the cleaned
name contains a comma yet its comma-split leaves exactly one non-empty
part of more than two words, so the first pass strips every comma and
the second pass re-inserts one. -/
def entradaDegenerada (nombre : Str) : Bool :=
  (limpiarNombre nombre).contains ',' &&
    (match partesNombre (limpiarNombre nombre) with
     | [p] => decide (2 < (separarEn ' ' p).length)
     | _ => false)

/-! ### Lemmas about the relationship checker -/

theorem validarDesde_map_dni (buscar : Oraculo) :
    ∀ (i : Nat) (dnis : List Str),
      (validarMultiplesDNIsDesde buscar i dnis).map (fun v => v.dni) = dnis := by
  intro i dnis
  induction dnis generalizing i with
  | nil => rfl
  | cons d resto ih =>
    simp only [validarMultiplesDNIsDesde, List.map_cons, ih]
    cases buscar i d <;> rfl

theorem validarMultiplesDNIs_map_dni (buscar : Oraculo) (dnis : List Str) :
    (validarMultiplesDNIs buscar dnis).map (fun v => v.dni) = dnis :=
  validarDesde_map_dni buscar 0 dnis

theorem validarMultiplesDNIs_length (buscar : Oraculo) (dnis : List Str) :
    (validarMultiplesDNIs buscar dnis).length = dnis.length := by
  have h := congrArg List.length (validarMultiplesDNIs_map_dni buscar dnis)
  simpa using h

theorem validarDesde_get? (buscar : Oraculo) :
    ∀ (i : Nat) (dnis : List Str) (k : Nat) (d : Str), dnis.get? k = some d →
      (validarMultiplesDNIsDesde buscar i dnis).get? k =
        some (match buscar (i + k) d with
          | .ok b => resultadoBusqueda d b
          | .error m => resultadoErrorDNI d m) := by
  intro i dnis
  induction dnis generalizing i with
  | nil => intro k d h; simp at h
  | cons d0 resto ih =>
    intro k d h
    cases k with
    | zero =>
      simp only [List.get?] at h
      cases h
      simp [validarMultiplesDNIsDesde]
    | succ k =>
      simp only [List.get?] at h
      have := ih (i + 1) k d h
      simp only [validarMultiplesDNIsDesde, List.get?]
      rw [this]
      have harit : i + 1 + k = i + (k + 1) := by omega
      rw [harit]

theorem validarDesde_error_campos (buscar : Oraculo) :
    ∀ (i : Nat) (dnis : List Str) (v : Validacion),
      v ∈ validarMultiplesDNIsDesde buscar i dnis →
      v.error = true → v.esFamiliar = false ∧ v.encontrado = false := by
  intro i dnis
  induction dnis generalizing i with
  | nil => intro v h; simp [validarMultiplesDNIsDesde] at h
  | cons d resto ih =>
    intro v h herr
    simp only [validarMultiplesDNIsDesde, List.mem_cons] at h
    rcases h with h | h
    · cases hb : buscar i d with
      | ok b => rw [hb] at h; rw [h] at herr; simp [resultadoBusqueda] at herr
      | error m => rw [hb] at h; rw [h]; simp [resultadoErrorDNI]
    · exact ih (i + 1) v h herr

/-! ### Lemmas about the decision step -/

theorem paso4_aux (vs : List Validacion) :
    ∀ (ps : List Persona) (cf ap : List Str),
      (vs.foldl
        (fun acc v =>
          ( actualizarPersonaValidada acc.1 v,
            if v.esFamiliar then acc.2.1 ++ [v.dni] else acc.2.1,
            if v.esFamiliar then acc.2.2 else acc.2.2 ++ [v.dni] ))
        (ps, cf, ap)).2 =
      (cf ++ (vs.filter (fun v => v.esFamiliar)).map (fun v => v.dni),
       ap ++ (vs.filter (fun v => !v.esFamiliar)).map (fun v => v.dni)) := by
  induction vs with
  | nil => intro ps cf ap; simp
  | cons v resto ih =>
    intro ps cf ap
    simp only [List.foldl_cons, List.filter_cons]
    cases hf : v.esFamiliar with
    | true => simp [hf, ih, List.append_assoc]
    | false => simp [hf, ih, List.append_assoc]

theorem paso4_par (personas : List Persona) (vs : List Validacion) :
    (paso4 personas vs).2 =
      ((vs.filter (fun v => v.esFamiliar)).map (fun v => v.dni),
       (vs.filter (fun v => !v.esFamiliar)).map (fun v => v.dni)) := by
  have h := paso4_aux vs personas [] []
  simpa [paso4] using h

theorem paso4_conFamiliares (personas : List Persona) (vs : List Validacion) :
    (paso4 personas vs).2.1 = (vs.filter (fun v => v.esFamiliar)).map (fun v => v.dni) := by
  rw [paso4_par]

theorem paso4_aprobados (personas : List Persona) (vs : List Validacion) :
    (paso4 personas vs).2.2 = (vs.filter (fun v => !v.esFamiliar)).map (fun v => v.dni) := by
  rw [paso4_par]

/-! ### Lemmas about identifier collection -/

theorem agregarDNIsUnicos_nodup (nuevos : List Str) :
    ∀ (acumulados : List Str), acumulados.Nodup → (agregarDNIsUnicos acumulados nuevos).Nodup := by
  induction nuevos with
  | nil => intro acc h; simpa [agregarDNIsUnicos] using h
  | cons d resto ih =>
    intro acc h
    simp only [agregarDNIsUnicos, List.foldl_cons]
    by_cases hc : acc.contains d
    · simp only [hc, if_true]
      exact ih acc h
    · simp only [hc, if_false]
      apply ih
      have hnm : d ∉ acc := by simpa using hc
      simp [List.nodup_append, h, hnm]

/-! ### Shape lemmas for `procesarRUC` -/

theorem resultadoFuentes_nodup (datosSunat datosOsce : Settled DatosFuente) (ruc : Str)
    (h : ∀ d, datosSunat = .fulfilled d → d.dnis.Nodup) :
    (resultadoFuentes datosSunat datosOsce ruc).dnisTotales.Nodup := by
  cases datosSunat with
  | fulfilled d =>
    have hd := h d rfl
    cases datosOsce with
    | fulfilled e =>
      simp only [resultadoFuentes, resultadoInicial, List.nil_append]
      exact agregarDNIsUnicos_nodup e.dnis d.dnis hd
    | rejected m => simpa [resultadoFuentes, resultadoInicial] using hd
  | rejected m =>
    cases datosOsce with
    | fulfilled e =>
      simp only [resultadoFuentes, resultadoInicial]
      exact agregarDNIsUnicos_nodup e.dnis [] List.nodup_nil
    | rejected m2 => simp [resultadoFuentes, resultadoInicial]

theorem resultadoFuentes_campos (datosSunat datosOsce : Settled DatosFuente) (ruc : Str) :
    (resultadoFuentes datosSunat datosOsce ruc).dnisConFamiliares = [] ∧
    (resultadoFuentes datosSunat datosOsce ruc).dnisAprobados = [] ∧
    (resultadoFuentes datosSunat datosOsce ruc).validacionesDNI = [] := by
  cases datosSunat <;> cases datosOsce <;> simp [resultadoFuentes, resultadoInicial]

theorem procesarRUC_invalido (buscar : Oraculo) (datosSunat datosOsce : Settled DatosFuente)
    (ruc : Str) (h : (validarFormatoRUC ruc).valido = false) :
    procesarRUC buscar datosSunat datosOsce ruc =
      { resultadoInicial ruc with
        aprobado := false, motivoRechazo := some (validarFormatoRUC ruc).mensaje } := by
  simp [procesarRUC, h]

theorem procesarRUC_sinDNIs (buscar : Oraculo) (datosSunat datosOsce : Settled DatosFuente)
    (ruc : Str) (h : (validarFormatoRUC ruc).valido = true)
    (h2 : (resultadoFuentes datosSunat datosOsce ruc).dnisTotales = []) :
    procesarRUC buscar datosSunat datosOsce ruc =
      { resultadoFuentes datosSunat datosOsce ruc with
        aprobado := false, motivoRechazo := some mensajeSinDNIs } := by
  simp [procesarRUC, h, h2]

theorem procesarRUC_decision (buscar : Oraculo) (datosSunat datosOsce : Settled DatosFuente)
    (ruc : Str) (h : (validarFormatoRUC ruc).valido = true)
    (h2 : (resultadoFuentes datosSunat datosOsce ruc).dnisTotales ≠ []) :
    procesarRUC buscar datosSunat datosOsce ruc =
      (let r2 := resultadoFuentes datosSunat datosOsce ruc
       let validaciones := validarMultiplesDNIs buscar r2.dnisTotales
       let analizado := paso4 (construirPersonas r2.detallesSunat r2.detallesOsce) validaciones
       let r3 :=
         { r2 with
           personasDetalladas := analizado.1,
           validacionesDNI := validaciones,
           dnisConFamiliares := analizado.2.1,
           dnisAprobados := analizado.2.2 }
       if analizado.2.1.length > 0 then
         { r3 with
           aprobado := false,
           motivoRechazo := some (mensajeFamiliares analizado.2.1.length) }
       else { r3 with aprobado := true }) := by
  have hl : ((resultadoFuentes datosSunat datosOsce ruc).dnisTotales.length == 0) = false := by
    simpa using h2
  simp only [procesarRUC, h, Bool.not_true, if_neg (by simp : ¬(false = true)), hl]

theorem procesarRUC_decision_campos (buscar : Oraculo)
    (datosSunat datosOsce : Settled DatosFuente) (ruc : Str)
    (h : (validarFormatoRUC ruc).valido = true)
    (h2 : (resultadoFuentes datosSunat datosOsce ruc).dnisTotales ≠ []) :
    (procesarRUC buscar datosSunat datosOsce ruc).dnisTotales =
        (resultadoFuentes datosSunat datosOsce ruc).dnisTotales ∧
    (procesarRUC buscar datosSunat datosOsce ruc).validacionesDNI =
        validarMultiplesDNIs buscar (resultadoFuentes datosSunat datosOsce ruc).dnisTotales ∧
    (procesarRUC buscar datosSunat datosOsce ruc).dnisConFamiliares =
        (((procesarRUC buscar datosSunat datosOsce ruc).validacionesDNI.filter
          (fun v => v.esFamiliar)).map (fun v => v.dni)) ∧
    (procesarRUC buscar datosSunat datosOsce ruc).dnisAprobados =
        (((procesarRUC buscar datosSunat datosOsce ruc).validacionesDNI.filter
          (fun v => !v.esFamiliar)).map (fun v => v.dni)) ∧
    ((procesarRUC buscar datosSunat datosOsce ruc).aprobado = true ↔
        (procesarRUC buscar datosSunat datosOsce ruc).dnisConFamiliares = []) ∧
    ((procesarRUC buscar datosSunat datosOsce ruc).dnisConFamiliares ≠ [] →
        (procesarRUC buscar datosSunat datosOsce ruc).motivoRechazo =
          some (mensajeFamiliares
            (procesarRUC buscar datosSunat datosOsce ruc).dnisConFamiliares.length)) := by
  rw [procesarRUC_decision buscar datosSunat datosOsce ruc h h2]
  simp only [paso4_conFamiliares, paso4_aprobados]
  by_cases hf :
      (validarMultiplesDNIs buscar
        (resultadoFuentes datosSunat datosOsce ruc).dnisTotales).filter
          (fun v => v.esFamiliar) = []
  · simp [hf]
  · have hl : 0 < ((validarMultiplesDNIs buscar
        (resultadoFuentes datosSunat datosOsce ruc).dnisTotales).filter
          (fun v => v.esFamiliar)).length :=
      List.length_pos.mpr hf
    have hm : ((validarMultiplesDNIs buscar
        (resultadoFuentes datosSunat datosOsce ruc).dnisTotales).filter
          (fun v => v.esFamiliar)).map (fun v => v.dni) ≠ [] := by
      simp [hf]
    simp [hl, hm, List.length_map]

/-! ### Claim C1 -/

/-- C1, counterexample: on the invalid-format path the aggregation
result has `aprobado = false` while `dnisConFamiliares` is empty, so
the claimed equivalence between approval and emptiness of the rejected
list fails on that path. -/
theorem c1_contraejemplo :
    ¬ ((procesarRUC (fun _ _ => Except.error []) (.rejected []) (.rejected [])
          ("123".toList)).aprobado = true ↔
       (procesarRUC (fun _ _ => Except.error []) (.rejected []) (.rejected [])
          ("123".toList)).dnisConFamiliares = []) := by
  decide

/-- C1, amended: approval always forces an empty rejected list, and on
every run whose merged identifier list is non-empty (the runs that
reach the decision step) approval is equivalent to the rejected list
being empty; the early-exit paths (invalid format, no identifiers)
return `aprobado = false` with an empty rejected list. -/
theorem c1_aprobado_sii_sin_familiares (buscar : Oraculo)
    (datosSunat datosOsce : Settled DatosFuente) (ruc : Str) :
    ((procesarRUC buscar datosSunat datosOsce ruc).aprobado = true →
      (procesarRUC buscar datosSunat datosOsce ruc).dnisConFamiliares = []) ∧
    ((procesarRUC buscar datosSunat datosOsce ruc).dnisTotales ≠ [] →
      ((procesarRUC buscar datosSunat datosOsce ruc).aprobado = true ↔
       (procesarRUC buscar datosSunat datosOsce ruc).dnisConFamiliares = [])) := by
  by_cases hv : (validarFormatoRUC ruc).valido = true
  · by_cases htf : (resultadoFuentes datosSunat datosOsce ruc).dnisTotales = []
    · rw [procesarRUC_sinDNIs buscar datosSunat datosOsce ruc hv htf]
      constructor
      · intro h; simp at h
      · intro hne; exact absurd htf hne
    · have hc := procesarRUC_decision_campos buscar datosSunat datosOsce ruc hv htf
      exact ⟨fun h => hc.2.2.2.2.1.mp h, fun _ => hc.2.2.2.2.1⟩
  · have hv2 : (validarFormatoRUC ruc).valido = false := by
      simpa using hv
    rw [procesarRUC_invalido buscar datosSunat datosOsce ruc hv2]
    constructor
    · intro h; simp at h
    · intro hne; exact absurd rfl hne

/-- C1, witness: a run with one collected identifier and a clean lookup
reaches the decision step and satisfies the amended equivalence. -/
theorem c1_testigo :
    (procesarRUC oraculoSinFamiliar (.fulfilled fuenteEjemplo) (.rejected [])
        rucEjemplo).dnisTotales ≠ [] ∧
    ((procesarRUC oraculoSinFamiliar (.fulfilled fuenteEjemplo) (.rejected [])
        rucEjemplo).aprobado = true ↔
     (procesarRUC oraculoSinFamiliar (.fulfilled fuenteEjemplo) (.rejected [])
        rucEjemplo).dnisConFamiliares = []) :=
  ⟨by decide,
   (c1_aprobado_sii_sin_familiares oraculoSinFamiliar (.fulfilled fuenteEjemplo)
      (.rejected []) rucEjemplo).2 (by decide)⟩

/-! ### Claim C4 -/

/-- C4: on every run that reaches the decision step (non-empty merged
identifier list) with deduplicated SUNAT identifiers (the scraper
returns a `Set`-deduplicated array), the approved and rejected lists
are disjoint and their union is exactly the merged identifier list. -/
theorem c4_particion (buscar : Oraculo) (datosSunat datosOsce : Settled DatosFuente)
    (ruc : Str) (hnd : ∀ d, datosSunat = .fulfilled d → d.dnis.Nodup)
    (ht : (procesarRUC buscar datosSunat datosOsce ruc).dnisTotales ≠ []) :
    List.Disjoint (procesarRUC buscar datosSunat datosOsce ruc).dnisAprobados
      (procesarRUC buscar datosSunat datosOsce ruc).dnisConFamiliares ∧
    ∀ d, (d ∈ (procesarRUC buscar datosSunat datosOsce ruc).dnisAprobados ∨
          d ∈ (procesarRUC buscar datosSunat datosOsce ruc).dnisConFamiliares) ↔
         d ∈ (procesarRUC buscar datosSunat datosOsce ruc).dnisTotales := by
  by_cases hv : (validarFormatoRUC ruc).valido = true
  · by_cases htf : (resultadoFuentes datosSunat datosOsce ruc).dnisTotales = []
    · exfalso
      apply ht
      rw [procesarRUC_sinDNIs buscar datosSunat datosOsce ruc hv htf]
      exact htf
    · obtain ⟨hT, hV, hCF, hAP, _, _⟩ :=
        procesarRUC_decision_campos buscar datosSunat datosOsce ruc hv htf
      have hmapdni :
          (procesarRUC buscar datosSunat datosOsce ruc).validacionesDNI.map
            (fun v => v.dni) =
            (procesarRUC buscar datosSunat datosOsce ruc).dnisTotales := by
        rw [hV, validarMultiplesDNIs_map_dni, hT]
      have hnodup :
          ((procesarRUC buscar datosSunat datosOsce ruc).validacionesDNI.map
            (fun v => v.dni)).Nodup := by
        rw [hmapdni, hT]
        exact resultadoFuentes_nodup datosSunat datosOsce ruc hnd
      constructor
      · intro d hd1 hd2
        rw [hAP] at hd1
        rw [hCF] at hd2
        simp only [List.mem_map, List.mem_filter] at hd1 hd2
        obtain ⟨v1, ⟨hv1m, hv1f⟩, hv1d⟩ := hd1
        obtain ⟨v2, ⟨hv2m, hv2f⟩, hv2d⟩ := hd2
        have heq : v1 = v2 :=
          List.inj_on_of_nodup_map hnodup hv1m hv2m (by rw [hv1d, hv2d])
        rw [heq, hv2f] at hv1f
        simp at hv1f
      · intro d
        rw [hAP, hCF, ← hmapdni]
        constructor
        · rintro (hd | hd) <;>
            (simp only [List.mem_map, List.mem_filter] at hd ⊢
             obtain ⟨v, ⟨hm, _⟩, hdq⟩ := hd
             exact ⟨v, hm, hdq⟩)
        · intro hd
          simp only [List.mem_map] at hd
          obtain ⟨v, hm, hdq⟩ := hd
          cases hfam : v.esFamiliar with
          | false =>
            left
            simp only [List.mem_map, List.mem_filter]
            exact ⟨v, ⟨hm, by simp [hfam]⟩, hdq⟩
          | true =>
            right
            simp only [List.mem_map, List.mem_filter]
            exact ⟨v, ⟨hm, hfam⟩, hdq⟩
  · exfalso
    apply ht
    rw [procesarRUC_invalido buscar datosSunat datosOsce ruc (by simpa using hv)]
    rfl

/-- C4, witness: the partition at a concrete run with one identifier. -/
theorem c4_testigo :
    List.Disjoint (procesarRUC oraculoSinFamiliar (.fulfilled fuenteEjemplo)
        (.rejected []) rucEjemplo).dnisAprobados
      (procesarRUC oraculoSinFamiliar (.fulfilled fuenteEjemplo)
        (.rejected []) rucEjemplo).dnisConFamiliares ∧
    ∀ d, (d ∈ (procesarRUC oraculoSinFamiliar (.fulfilled fuenteEjemplo)
            (.rejected []) rucEjemplo).dnisAprobados ∨
          d ∈ (procesarRUC oraculoSinFamiliar (.fulfilled fuenteEjemplo)
            (.rejected []) rucEjemplo).dnisConFamiliares) ↔
         d ∈ (procesarRUC oraculoSinFamiliar (.fulfilled fuenteEjemplo)
            (.rejected []) rucEjemplo).dnisTotales :=
  c4_particion oraculoSinFamiliar (.fulfilled fuenteEjemplo) (.rejected []) rucEjemplo
    (fun d h => by cases h; decide) (by decide)

/-! ### Claim C5 -/

/-- C5: the relationship checker returns exactly one result per input
identifier, in input order (the projection of the results to their
identifiers is the input list), and a call whose lookup throws yields
the error entry, with `encontrado = false` and the error marker, at the
same position, leaving the rest of the queue intact. -/
theorem c5_orden_y_errores (buscar : Oraculo) (dnis : List Str) :
    (validarMultiplesDNIs buscar dnis).map (fun v => v.dni) = dnis ∧
    ∀ k d m, dnis.get? k = some d → buscar k d = .error m →
      (validarMultiplesDNIs buscar dnis).get? k = some (resultadoErrorDNI d m) ∧
      (resultadoErrorDNI d m).encontrado = false ∧
      (resultadoErrorDNI d m).error = true := by
  refine ⟨validarMultiplesDNIs_map_dni buscar dnis, ?_⟩
  intro k d m hk herr
  have h := validarDesde_get? buscar 0 dnis k d hk
  rw [Nat.zero_add, herr] at h
  exact ⟨h, rfl, rfl⟩

/-- C5, witness: a two-element queue whose first lookup throws still
produces both results in order. -/
theorem c5_testigo :
    (validarMultiplesDNIs oraculoFalla ["11111111".toList, "22222222".toList]).map
        (fun v => v.dni) = ["11111111".toList, "22222222".toList] ∧
    (validarMultiplesDNIs oraculoFalla ["11111111".toList, "22222222".toList]).get? 0 =
      some (resultadoErrorDNI ("11111111".toList) ("fallo de red".toList)) :=
  ⟨(c5_orden_y_errores oraculoFalla _).1,
   ((c5_orden_y_errores oraculoFalla ["11111111".toList, "22222222".toList]).2
      0 ("11111111".toList) ("fallo de red".toList) (by decide) rfl).1⟩

/-! ### Claim C6 -/

/-- C6: a run that passes format validation but collects no identifier
is rejected with the distinct no-identifiers reason, which differs from
the family-detected reason at every count. -/
theorem c6_sin_identificadores (buscar : Oraculo)
    (datosSunat datosOsce : Settled DatosFuente) (ruc : Str)
    (hv : (validarFormatoRUC ruc).valido = true)
    (ht : (resultadoFuentes datosSunat datosOsce ruc).dnisTotales = []) :
    (procesarRUC buscar datosSunat datosOsce ruc).aprobado = false ∧
    (procesarRUC buscar datosSunat datosOsce ruc).motivoRechazo = some mensajeSinDNIs ∧
    ∀ n, mensajeSinDNIs ≠ mensajeFamiliares n := by
  rw [procesarRUC_sinDNIs buscar datosSunat datosOsce ruc hv ht]
  refine ⟨rfl, rfl, ?_⟩
  intro n h
  have h2 : (mensajeFamiliares n).head? = some 'S' := rfl
  rw [← h] at h2
  exact absurd h2 (by decide)

/-- C6, witness: both sources rejected yields the no-identifiers
rejection at a concrete valid organization identifier. -/
theorem c6_testigo :
    (procesarRUC oraculoFalla (.rejected []) (.rejected []) rucEjemplo).aprobado = false ∧
    (procesarRUC oraculoFalla (.rejected []) (.rejected [])
        rucEjemplo).motivoRechazo = some mensajeSinDNIs ∧
    ∀ n, mensajeSinDNIs ≠ mensajeFamiliares n :=
  c6_sin_identificadores oraculoFalla (.rejected []) (.rejected []) rucEjemplo
    (by decide) (by decide)

/-! ### Claim C10 -/

/-- C10: every validation entry not flagged as family — in particular
every error entry, which carries `esFamiliar` absent, modelled as
`false` — has its identifier routed to the approved list; an identifier
lands in the rejected list only on the strength of an entry flagged
`esFamiliar = true`; and a run that reaches the decision step is
disapproved only when some entry is flagged as family. -/
theorem c10_error_no_rechaza (buscar : Oraculo)
    (datosSunat datosOsce : Settled DatosFuente) (ruc : Str) :
    (∀ v, v ∈ (procesarRUC buscar datosSunat datosOsce ruc).validacionesDNI →
      (v.error = true → v.esFamiliar = false) ∧
      (v.esFamiliar = false →
        v.dni ∈ (procesarRUC buscar datosSunat datosOsce ruc).dnisAprobados)) ∧
    (∀ d, d ∈ (procesarRUC buscar datosSunat datosOsce ruc).dnisConFamiliares →
      ∃ v, v ∈ (procesarRUC buscar datosSunat datosOsce ruc).validacionesDNI ∧
        v.dni = d ∧ v.esFamiliar = true) ∧
    ((procesarRUC buscar datosSunat datosOsce ruc).dnisTotales ≠ [] →
      (procesarRUC buscar datosSunat datosOsce ruc).aprobado = false →
      ∃ v, v ∈ (procesarRUC buscar datosSunat datosOsce ruc).validacionesDNI ∧
        v.esFamiliar = true) := by
  by_cases hv : (validarFormatoRUC ruc).valido = true
  · by_cases htf : (resultadoFuentes datosSunat datosOsce ruc).dnisTotales = []
    · rw [procesarRUC_sinDNIs buscar datosSunat datosOsce ruc hv htf]
      refine ⟨?_, ?_, ?_⟩
      · intro v hm
        obtain ⟨-, -, h3⟩ := resultadoFuentes_campos datosSunat datosOsce ruc
        rw [show ({ resultadoFuentes datosSunat datosOsce ruc with
            aprobado := false,
            motivoRechazo := some mensajeSinDNIs } : Resultado).validacionesDNI =
            (resultadoFuentes datosSunat datosOsce ruc).validacionesDNI from rfl, h3] at hm
        simp at hm
      · intro d hm
        obtain ⟨h1, -, -⟩ := resultadoFuentes_campos datosSunat datosOsce ruc
        rw [show ({ resultadoFuentes datosSunat datosOsce ruc with
            aprobado := false,
            motivoRechazo := some mensajeSinDNIs } : Resultado).dnisConFamiliares =
            (resultadoFuentes datosSunat datosOsce ruc).dnisConFamiliares from rfl, h1] at hm
        simp at hm
      · intro hne
        exact absurd htf hne
    · obtain ⟨hT, hV, hCF, hAP, hiff, -⟩ :=
        procesarRUC_decision_campos buscar datosSunat datosOsce ruc hv htf
      refine ⟨?_, ?_, ?_⟩
      · intro v hm
        constructor
        · intro herr
          rw [hV] at hm
          exact (validarDesde_error_campos buscar 0 _ v hm herr).1
        · intro hfam
          rw [hAP]
          simp only [List.mem_map, List.mem_filter]
          exact ⟨v, ⟨hm, by simp [hfam]⟩, rfl⟩
      · intro d hd
        rw [hCF] at hd
        simp only [List.mem_map, List.mem_filter] at hd
        obtain ⟨v, ⟨hm, hfam⟩, hdq⟩ := hd
        exact ⟨v, hm, hdq, hfam⟩
      · intro _ hap
        have hne : (procesarRUC buscar datosSunat datosOsce ruc).dnisConFamiliares ≠ [] := by
          intro hempty
          rw [hiff.mpr hempty] at hap
          cases hap
        obtain ⟨d, hd⟩ := List.exists_mem_of_ne_nil _ hne
        rw [hCF] at hd
        simp only [List.mem_map, List.mem_filter] at hd
        obtain ⟨v, ⟨hm, hfam⟩, -⟩ := hd
        exact ⟨v, hm, hfam⟩
  · rw [procesarRUC_invalido buscar datosSunat datosOsce ruc (by simpa using hv)]
    refine ⟨?_, ?_, ?_⟩
    · intro v hm
      simp [resultadoInicial] at hm
    · intro d hm
      simp [resultadoInicial] at hm
    · intro hne
      exact absurd rfl hne

/-- C10, witness: a failing lookup at a concrete run still lands its
identifier in the approved list. -/
theorem c10_testigo :
    (resultadoErrorDNI ("11111111".toList) ("fallo de red".toList)).dni ∈
      (procesarRUC oraculoFalla (.fulfilled fuenteEjemplo) (.rejected [])
        rucEjemplo).dnisAprobados :=
  ((c10_error_no_rechaza oraculoFalla (.fulfilled fuenteEjemplo) (.rejected [])
      rucEjemplo).1 (resultadoErrorDNI ("11111111".toList) ("fallo de red".toList))
    (by decide)).2 (by decide)

/-- C2, counterexample: a list of two equal identifiers passes the
minimum-count validation (which runs on the raw list, before
deduplication) and performs one lookup instead of failing with zero
lookups as claimed. -/
theorem c2_contraejemplo :
    esInvalido (compararDNIsEndpoint oraculoSinFamiliar
      ["11111111".toList, "11111111".toList]) = false ∧
    busquedasRealizadas (compararDNIsEndpoint oraculoSinFamiliar
      ["11111111".toList, "11111111".toList]) = 1 := by
  decide

/-- C2, amended: the minimum-count validation applies to the raw input
list, before deduplication: every call whose raw list has fewer than
two entries fails with a 400 validation error and performs zero
lookups, while a list of two or more copies of one identifier proceeds
to the comparison with one lookup per distinct identifier. -/
theorem c2_minimo_sobre_lista_bruta (buscar : Oraculo) (dnis : List Str)
    (h : dnis.length < 2) :
    ∃ m, compararDNIsEndpoint buscar dnis = .invalido 400 m ∧
      busquedasRealizadas (compararDNIsEndpoint buscar dnis) = 0 := by
  match dnis with
  | [] =>
    refine ⟨"Debe proporcionar al menos un DNI".toList, ?_, ?_⟩ <;> rfl
  | [d] =>
    refine ⟨"Debe proporcionar al menos 2 DNIs para comparar".toList, ?_, ?_⟩ <;>
      simp [compararDNIsEndpoint, esInvalido, busquedasRealizadas]
  | d :: e :: resto =>
    exfalso
    simp at h
    omega

/-- C2, witness: the singleton list is rejected with zero lookups. -/
theorem c2_testigo :
    ∃ m, compararDNIsEndpoint oraculoSinFamiliar ["11111111".toList] = .invalido 400 m ∧
      busquedasRealizadas (compararDNIsEndpoint oraculoSinFamiliar
        ["11111111".toList]) = 0 :=
  c2_minimo_sobre_lista_bruta oraculoSinFamiliar ["11111111".toList] (by decide)

theorem pasoVinculo_pairwise (validados : List Validado) (dnisList : List Str)
    (acc : List Vinculo) (p1 : Validado)
    (h : acc.Pairwise paresDistintos) :
    (pasoVinculo validados dnisList acc p1).Pairwise paresDistintos := by
  unfold pasoVinculo
  split
  · exact h
  · split
    · exact h
    · next df hdf =>
      split
      · split
        · exact h
        · next hrep =>
          rw [List.pairwise_append]
          refine ⟨h, List.pairwise_singleton _ _, ?_⟩
          intro a ha b hb
          simp only [List.mem_singleton] at hb
          subst hb
          unfold vinculoRepetido at hrep
          simp only [List.any_eq_true, not_exists, Bool.or_eq_true, Bool.and_eq_true,
            beq_iff_eq, not_or, not_and] at hrep
          have ha2 := hrep a ha
          constructor
          · intro hcontra
            rw [show (nuevoVinculo validados p1 df).dni1 = p1.dni from rfl,
                show (nuevoVinculo validados p1 df).dni2 = df from rfl] at hcontra
            exact ha2.1 hcontra.1 hcontra.2
          · intro hcontra
            rw [show (nuevoVinculo validados p1 df).dni1 = p1.dni from rfl,
                show (nuevoVinculo validados p1 df).dni2 = df from rfl] at hcontra
            exact ha2.2 hcontra.1 hcontra.2
      · exact h

theorem detectarVinculos_pairwise_aux (validados : List Validado) (dnisList : List Str) :
    ∀ (resto : List Validado) (acc : List Vinculo), acc.Pairwise paresDistintos →
      (resto.foldl (pasoVinculo validados dnisList) acc).Pairwise paresDistintos := by
  intro resto
  induction resto with
  | nil => intro acc h; exact h
  | cons p resto ih =>
    intro acc h
    exact ih _ (pasoVinculo_pairwise validados dnisList acc p h)

/-- C9: no two entries of the emitted link list are permutations of the
same unordered pair, for every input: the pre-emission scan over both
orientations guarantees pairwise distinctness of the unordered pairs. -/
theorem c9_vinculos_sin_permutaciones (validados : List Validado) (dnisList : List Str) :
    (detectarVinculos validados dnisList).Pairwise paresDistintos :=
  detectarVinculos_pairwise_aux validados dnisList validados [] List.Pairwise.nil

theorem validarTodos_map_dni (buscar : Oraculo) :
    ∀ (i : Nat) (dnis : List Str) (vs : List Validado),
      validarTodosDesde buscar i dnis = .ok vs → vs.map (fun v => v.dni) = dnis := by
  intro i dnis
  induction dnis generalizing i with
  | nil =>
    intro vs h
    simp only [validarTodosDesde] at h
    cases h
    rfl
  | cons d resto ih =>
    intro vs h
    simp only [validarTodosDesde] at h
    cases hb : buscar i d with
    | error m => rw [hb] at h; cases h
    | ok b =>
      rw [hb] at h
      cases hr : validarTodosDesde buscar (i + 1) resto with
      | error m => rw [hr] at h; cases h
      | ok vs0 =>
        rw [hr] at h
        cases h
        simp only [List.map_cons]
        rw [ih (i + 1) vs0 hr]
        rfl

theorem compararDNIs_ok_campos (buscar : Oraculo) (dnis : List Str) (c : Comparacion)
    (hok : comparacionDe (compararDNIs buscar dnis) = some c) :
    c.dnisValidados.map (fun v => v.dni) = dnis ∧
    c.vinculosEncontrados = detectarVinculos c.dnisValidados dnis := by
  unfold compararDNIs at hok
  cases heq : validarTodosDesde buscar 0 dnis with
  | error m => rw [heq] at hok; simp [comparacionDe] at hok
  | ok validados =>
    rw [heq] at hok
    simp only [comparacionDe, Option.some_inj] at hok
    subst hok
    exact ⟨validarTodos_map_dni buscar 0 dnis validados heq, rfl⟩

theorem agregarAlConjunto_mem (s : List Str) (x d : Str) :
    d ∈ agregarAlConjunto s x ↔ d ∈ s ∨ d = x := by
  by_cases hc : s.contains x
  · have hx : x ∈ s := by simpa using hc
    simp only [agregarAlConjunto, hc, if_true]
    constructor
    · exact Or.inl
    · rintro (h | rfl)
      · exact h
      · exact hx
  · simp only [agregarAlConjunto, hc, if_false]
    simp

theorem conjuntoConVinculos_mem_aux :
    ∀ (vs : List Vinculo) (s : List Str) (d : Str),
      d ∈ vs.foldl (fun s v => agregarAlConjunto (agregarAlConjunto s v.dni1) v.dni2) s ↔
        d ∈ s ∨ ∃ v ∈ vs, d = v.dni1 ∨ d = v.dni2 := by
  intro vs
  induction vs with
  | nil => intro s d; simp
  | cons v vs ih =>
    intro s d
    simp only [List.foldl_cons]
    rw [ih, agregarAlConjunto_mem, agregarAlConjunto_mem]
    simp only [List.mem_cons]
    constructor
    · rintro (((h | h) | h) | ⟨w, hw, hor⟩)
      · exact Or.inl h
      · exact Or.inr ⟨v, Or.inl rfl, Or.inl h⟩
      · exact Or.inr ⟨v, Or.inl rfl, Or.inr h⟩
      · exact Or.inr ⟨w, Or.inr hw, hor⟩
    · rintro (h | ⟨w, (rfl | hw), hor⟩)
      · exact Or.inl (Or.inl (Or.inl h))
      · rcases hor with h | h
        · exact Or.inl (Or.inl (Or.inr h))
        · exact Or.inl (Or.inr h)
      · exact Or.inr ⟨w, hw, hor⟩

theorem conjuntoConVinculos_mem (vs : List Vinculo) (d : Str) :
    d ∈ conjuntoConVinculos vs ↔ ∃ v ∈ vs, d = v.dni1 ∨ d = v.dni2 := by
  unfold conjuntoConVinculos
  rw [conjuntoConVinculos_mem_aux]
  simp

theorem pasoVinculo_extremos (validados : List Validado) (dnisList : List Str)
    (acc : List Vinculo) (p : Validado) (hp : p ∈ validados)
    (hacc : ∀ v ∈ acc,
      v.dni1 ∈ validados.map (fun q => q.dni) ∧ v.dni2 ∈ dnisList) :
    ∀ v ∈ pasoVinculo validados dnisList acc p,
      v.dni1 ∈ validados.map (fun q => q.dni) ∧ v.dni2 ∈ dnisList := by
  intro v hv
  unfold pasoVinculo at hv
  split at hv
  · exact hacc v hv
  · split at hv
    · exact hacc v hv
    · next df hdf =>
      split at hv
      · next hcont =>
        split at hv
        · exact hacc v hv
        · rcases List.mem_append.mp hv with hv2 | hv2
          · exact hacc v hv2
          · simp only [List.mem_singleton] at hv2
            subst hv2
            exact ⟨List.mem_map.mpr ⟨p, hp, rfl⟩, by simpa using hcont⟩
      · exact hacc v hv

theorem detectarVinculos_extremos_aux (validados : List Validado) (dnisList : List Str) :
    ∀ (resto : List Validado) (acc : List Vinculo),
      (∀ p ∈ resto, p ∈ validados) →
      (∀ v ∈ acc, v.dni1 ∈ validados.map (fun q => q.dni) ∧ v.dni2 ∈ dnisList) →
      ∀ v ∈ resto.foldl (pasoVinculo validados dnisList) acc,
        v.dni1 ∈ validados.map (fun q => q.dni) ∧ v.dni2 ∈ dnisList := by
  intro resto
  induction resto with
  | nil => intro acc _ hacc v hv; exact hacc v hv
  | cons p resto ih =>
    intro acc hsub hacc v hv
    exact ih _ (fun q hq => hsub q (List.mem_cons_of_mem p hq))
      (pasoVinculo_extremos validados dnisList acc p (hsub p (List.mem_cons_self p resto)) hacc)
      v hv

theorem detectarVinculos_extremos (validados : List Validado) (dnisList : List Str) :
    ∀ v ∈ detectarVinculos validados dnisList,
      v.dni1 ∈ validados.map (fun q => q.dni) ∧ v.dni2 ∈ dnisList := by
  intro v hv
  exact detectarVinculos_extremos_aux validados dnisList validados []
    (fun q hq => hq) (by intro w hw; simp at hw) v hv

/-- C3, counterexample: with one found identifier related to a second
identifier whose lookup has no data, the second identifier lands both
in the with-links bucket and in the without-data bucket, and the
subtraction-based without-links count of the summary becomes -1, so the
three buckets do not partition the input set. -/
theorem c3_contraejemplo :
    (comparacionDe (compararDNIs oraculoVinculo parDNIs)).map
      (fun c =>
        (c.resumen.dnisSinVinculos,
         (generarReporte c).dnisConVinculos.contains ("22222222".toList) &&
           (generarReporte c).dnisSinDatos.contains ("22222222".toList))) =
      some (-1, true) := by
  decide

/-- C3, amended: the three buckets of the report partition the
deduplicated input set provided every endpoint of an emitted link
belongs to an identifier whose lookup found data; without that proviso
the with-links and without-data buckets can overlap and the
subtraction-based count can go negative. -/
theorem c3_particion_condicional (buscar : Oraculo) (dnis : List Str) (c : Comparacion)
    (hok : comparacionDe (compararDNIs buscar dnis) = some c)
    (hnd : dnis.Nodup)
    (hfound : ∀ w ∈ c.dnisValidados,
      w.dni ∈ conjuntoConVinculos c.vinculosEncontrados → w.encontrado = true) :
    (∀ d, d ∈ dnis ↔
      (d ∈ (generarReporte c).dnisConVinculos ∨
       d ∈ (generarReporte c).dnisSinVinculos ∨
       d ∈ (generarReporte c).dnisSinDatos)) ∧
    List.Disjoint (generarReporte c).dnisConVinculos (generarReporte c).dnisSinVinculos ∧
    List.Disjoint (generarReporte c).dnisConVinculos (generarReporte c).dnisSinDatos ∧
    List.Disjoint (generarReporte c).dnisSinVinculos (generarReporte c).dnisSinDatos := by
  obtain ⟨hmap, hvin⟩ := compararDNIs_ok_campos buscar dnis c hok
  have hCV : (generarReporte c).dnisConVinculos =
      conjuntoConVinculos c.vinculosEncontrados := rfl
  have hSV : (generarReporte c).dnisSinVinculos =
      (c.dnisValidados.filter (fun v => v.encontrado &&
        !(conjuntoConVinculos c.vinculosEncontrados).contains v.dni)).map
        (fun v => v.dni) := rfl
  have hSD : (generarReporte c).dnisSinDatos =
      (c.dnisValidados.filter (fun v => !v.encontrado)).map (fun v => v.dni) := rfl
  have hnodupmap : (c.dnisValidados.map (fun v => v.dni)).Nodup := by
    rw [hmap]; exact hnd
  refine ⟨?_, ?_, ?_, ?_⟩
  · intro d
    constructor
    · intro hd
      rw [← hmap] at hd
      obtain ⟨w, hwm, hwd⟩ := List.mem_map.mp hd
      by_cases hcv : w.dni ∈ conjuntoConVinculos c.vinculosEncontrados
      · left
        rw [hCV, ← hwd]
        exact hcv
      · cases henc : w.encontrado with
        | true =>
          right; left
          rw [hSV]
          refine List.mem_map.mpr ⟨w, List.mem_filter.mpr ⟨hwm, ?_⟩, hwd⟩
          simp only [Bool.and_eq_true, henc, Bool.not_eq_true', true_and]
          simpa using hcv
        | false =>
          right; right
          rw [hSD]
          exact List.mem_map.mpr ⟨w, List.mem_filter.mpr ⟨hwm, by simp [henc]⟩, hwd⟩
    · rintro (hd | hd | hd)
      · rw [hCV] at hd
        obtain ⟨v, hvm, hor⟩ := (conjuntoConVinculos_mem _ _).mp hd
        rw [hvin] at hvm
        obtain ⟨h1, h2⟩ := detectarVinculos_extremos c.dnisValidados dnis v hvm
        rcases hor with rfl | rfl
        · rw [← hmap]; exact h1
        · exact h2
      · rw [hSV] at hd
        obtain ⟨w, hwf, hwd⟩ := List.mem_map.mp hd
        rw [← hmap]
        exact List.mem_map.mpr ⟨w, (List.mem_filter.mp hwf).1, hwd⟩
      · rw [hSD] at hd
        obtain ⟨w, hwf, hwd⟩ := List.mem_map.mp hd
        rw [← hmap]
        exact List.mem_map.mpr ⟨w, (List.mem_filter.mp hwf).1, hwd⟩
  · intro d hd1 hd2
    rw [hSV] at hd2
    obtain ⟨w, hwf, hwd⟩ := List.mem_map.mp hd2
    have hpred := (List.mem_filter.mp hwf).2
    simp only [Bool.and_eq_true, Bool.not_eq_true'] at hpred
    rw [hCV] at hd1
    rw [← hwd] at hd1
    have : (conjuntoConVinculos c.vinculosEncontrados).contains w.dni = true := by
      simpa using hd1
    rw [this] at hpred
    cases hpred.2
  · intro d hd1 hd2
    rw [hSD] at hd2
    obtain ⟨w, hwf, hwd⟩ := List.mem_map.mp hd2
    have henc := (List.mem_filter.mp hwf).2
    have hfw : w.encontrado = true := by
      apply hfound w (List.mem_filter.mp hwf).1
      rw [hwd, ← hCV]
      exact hd1
    rw [hfw] at henc
    cases henc
  · intro d hd1 hd2
    rw [hSV] at hd1
    rw [hSD] at hd2
    obtain ⟨w1, hw1f, hw1d⟩ := List.mem_map.mp hd1
    obtain ⟨w2, hw2f, hw2d⟩ := List.mem_map.mp hd2
    have heq : w1 = w2 :=
      List.inj_on_of_nodup_map hnodupmap (List.mem_filter.mp hw1f).1
        (List.mem_filter.mp hw2f).1 (by rw [hw1d, hw2d])
    have h1 := (List.mem_filter.mp hw1f).2
    have h2 := (List.mem_filter.mp hw2f).2
    rw [heq] at h1
    simp only [Bool.and_eq_true] at h1
    rw [h1.1] at h2
    cases h2

/-- C3, witness: with both lookups found, the amended partition holds
at the concrete two-identifier input. -/
theorem c3_testigo :
    (∀ d, d ∈ parDNIs ↔
      (d ∈ (generarReporte comparacionTestigo).dnisConVinculos ∨
       d ∈ (generarReporte comparacionTestigo).dnisSinVinculos ∨
       d ∈ (generarReporte comparacionTestigo).dnisSinDatos)) ∧
    List.Disjoint (generarReporte comparacionTestigo).dnisConVinculos
      (generarReporte comparacionTestigo).dnisSinVinculos ∧
    List.Disjoint (generarReporte comparacionTestigo).dnisConVinculos
      (generarReporte comparacionTestigo).dnisSinDatos ∧
    List.Disjoint (generarReporte comparacionTestigo).dnisSinVinculos
      (generarReporte comparacionTestigo).dnisSinDatos :=
  c3_particion_condicional oraculoVinculoEncontrado parDNIs comparacionTestigo
    (by decide) (by decide) (by decide)

/-! ### Claim C8 -/

theorem buscarPersona_cons_pos (q : Persona) (resto : List Persona) (d : Str)
    (h : (q.dni == d) = true) : buscarPersona (q :: resto) d = some q := by
  simp [buscarPersona, List.find?, h]

theorem buscarPersona_cons_neg (q : Persona) (resto : List Persona) (d : Str)
    (h : (q.dni == d) = false) :
    buscarPersona (q :: resto) d = buscarPersona resto d := by
  simp [buscarPersona, List.find?, h]

theorem buscarPersona_fijar_mismo (m : List Persona) (p : Persona) (d : Str)
    (hd : p.dni = d) : buscarPersona (fijarPersona m p) d = some p := by
  induction m with
  | nil => exact buscarPersona_cons_pos p [] d (by simpa using hd)
  | cons q resto ih =>
    by_cases hq : (q.dni == p.dni) = true
    · rw [show fijarPersona (q :: resto) p =
        (if q.dni == p.dni then p :: resto else q :: fijarPersona resto p) from rfl,
        if_pos hq]
      exact buscarPersona_cons_pos p resto d (by simpa using hd)
    · rw [show fijarPersona (q :: resto) p =
        (if q.dni == p.dni then p :: resto else q :: fijarPersona resto p) from rfl,
        if_neg hq]
      have hqd : (q.dni == d) = false := by
        rw [← hd]
        simpa using hq
      rw [buscarPersona_cons_neg q _ d hqd]
      exact ih

theorem buscarPersona_fijar_otro (m : List Persona) (p : Persona) (d : Str)
    (hd : p.dni ≠ d) : buscarPersona (fijarPersona m p) d = buscarPersona m d := by
  induction m with
  | nil => exact buscarPersona_cons_neg p [] d (by simpa using hd)
  | cons q resto ih =>
    by_cases hq : (q.dni == p.dni) = true
    · have hqd : (q.dni == d) = false := by
        have h2 : q.dni = p.dni := by simpa using hq
        rw [h2]
        simpa using hd
      rw [show fijarPersona (q :: resto) p =
        (if q.dni == p.dni then p :: resto else q :: fijarPersona resto p) from rfl,
        if_pos hq, buscarPersona_cons_neg p resto d (by simpa using hd),
        buscarPersona_cons_neg q resto d hqd]
    · rw [show fijarPersona (q :: resto) p =
        (if q.dni == p.dni then p :: resto else q :: fijarPersona resto p) from rfl,
        if_neg hq]
      by_cases hqd : (q.dni == d) = true
      · rw [buscarPersona_cons_pos q _ d hqd, buscarPersona_cons_pos q resto d hqd]
      · rw [buscarPersona_cons_neg q _ d (by simpa using hqd),
          buscarPersona_cons_neg q resto d (by simpa using hqd), ih]

theorem sunatFold_conserva (rs : Str) (d : Str) :
    ∀ (reps : List Representante) (m : List Persona),
      (∀ rep ∈ reps, rep.dni = d → rep.nombre = []) →
      buscarPersona m d = some (personaSunatVacia d rs) →
      buscarPersona
        (reps.foldl (fun m rep => fijarPersona m (personaDesdeSunat rs rep)) m) d =
        some (personaSunatVacia d rs) := by
  intro reps
  induction reps with
  | nil => intro m _ h; exact h
  | cons rep resto ih =>
    intro m hvacio h
    simp only [List.foldl_cons]
    by_cases hr : rep.dni = d
    · have hnom : rep.nombre = [] := hvacio rep (List.mem_cons_self rep resto) hr
      have hpers : personaDesdeSunat rs rep = personaSunatVacia d rs := by
        simp [personaDesdeSunat, personaSunatVacia, hr, hnom]
      refine ih _ (fun r hrm hrd => hvacio r (List.mem_cons_of_mem rep hrm) hrd) ?_
      rw [hpers]
      exact buscarPersona_fijar_mismo m _ d (by rw [← hpers]; exact hr)
    · refine ih _ (fun r hrm hrd => hvacio r (List.mem_cons_of_mem rep hrm) hrd) ?_
      rw [buscarPersona_fijar_otro m _ d (by simpa [personaDesdeSunat] using hr)]
      exact h

theorem sunatFold_presente (rs : Str) (d : Str) :
    ∀ (reps : List Representante) (m : List Persona),
      (∀ rep ∈ reps, rep.dni = d → rep.nombre = []) →
      d ∈ reps.map (fun r => r.dni) →
      buscarPersona
        (reps.foldl (fun m rep => fijarPersona m (personaDesdeSunat rs rep)) m) d =
        some (personaSunatVacia d rs) := by
  intro reps
  induction reps with
  | nil => intro m _ h; simp at h
  | cons rep resto ih =>
    intro m hvacio hd
    simp only [List.foldl_cons]
    by_cases hr : rep.dni = d
    · have hnom : rep.nombre = [] := hvacio rep (List.mem_cons_self rep resto) hr
      have hpers : personaDesdeSunat rs rep = personaSunatVacia d rs := by
        simp [personaDesdeSunat, personaSunatVacia, hr, hnom]
      apply sunatFold_conserva rs d resto _
        (fun r hrm hrd => hvacio r (List.mem_cons_of_mem rep hrm) hrd)
      rw [hpers]
      exact buscarPersona_fijar_mismo m _ d (by rw [← hpers]; exact hr)
    · have hd2 : d ∈ resto.map (fun r => r.dni) := by
        simp only [List.map_cons, List.mem_cons] at hd
        rcases hd with hd | hd
        · exact absurd hd.symm hr
        · exact hd
      exact ih _ (fun r hrm hrd => hvacio r (List.mem_cons_of_mem rep hrm) hrd) hd2

theorem buscarPersona_actualizar_mismo (rep : Representante) (d : Str)
    (hr : rep.dni = d) :
    ∀ (m : List Persona) (p : Persona), buscarPersona m d = some p →
      buscarPersona (actualizarConOsce m rep) d =
        some { p with
          fuentes := p.fuentes ++ ["OSCE".toList],
          nombre :=
            if p.nombre.isEmpty && !rep.nombre.isEmpty then formatearNombre rep.nombre
            else p.nombre } := by
  intro m
  induction m with
  | nil => intro p h; simp [buscarPersona, List.find?] at h
  | cons q resto ih =>
    intro p h
    by_cases hq : (q.dni == d) = true
    · rw [buscarPersona_cons_pos q resto d hq] at h
      simp only [Option.some_inj] at h
      subst h
      have hq2 : (q.dni == rep.dni) = true := by
        rw [hr]
        exact hq
      rw [show actualizarConOsce (q :: resto) rep =
        (if q.dni == rep.dni then
          ({ q with
             fuentes := q.fuentes ++ ["OSCE".toList],
             nombre :=
               if q.nombre.isEmpty && !rep.nombre.isEmpty then formatearNombre rep.nombre
               else q.nombre } :: resto)
         else q :: actualizarConOsce resto rep) from rfl, if_pos hq2]
      exact buscarPersona_cons_pos _ resto d hq
    · rw [Bool.not_eq_true] at hq
      rw [buscarPersona_cons_neg q resto d hq] at h
      have hq2 : (q.dni == rep.dni) = false := by
        rw [hr]
        exact hq
      rw [show actualizarConOsce (q :: resto) rep =
        (if q.dni == rep.dni then
          ({ q with
             fuentes := q.fuentes ++ ["OSCE".toList],
             nombre :=
               if q.nombre.isEmpty && !rep.nombre.isEmpty then formatearNombre rep.nombre
               else q.nombre } :: resto)
         else q :: actualizarConOsce resto rep) from rfl, if_neg (by simp [hq2]),
        buscarPersona_cons_neg q _ d hq]
      exact ih p h

theorem buscarPersona_actualizar_otro (rep : Representante) (d : Str)
    (hr : rep.dni ≠ d) :
    ∀ (m : List Persona),
      buscarPersona (actualizarConOsce m rep) d = buscarPersona m d := by
  intro m
  induction m with
  | nil => rfl
  | cons q resto ih =>
    by_cases hq : (q.dni == rep.dni) = true
    · have hqd : (q.dni == d) = false := by
        have h2 : q.dni = rep.dni := by simpa using hq
        rw [h2]
        simpa using hr
      rw [show actualizarConOsce (q :: resto) rep =
        (if q.dni == rep.dni then
          ({ q with
             fuentes := q.fuentes ++ ["OSCE".toList],
             nombre :=
               if q.nombre.isEmpty && !rep.nombre.isEmpty then formatearNombre rep.nombre
               else q.nombre } :: resto)
         else q :: actualizarConOsce resto rep) from rfl, if_pos hq,
        buscarPersona_cons_neg q resto d hqd]
      exact buscarPersona_cons_neg _ resto d hqd
    · rw [show actualizarConOsce (q :: resto) rep =
        (if q.dni == rep.dni then
          ({ q with
             fuentes := q.fuentes ++ ["OSCE".toList],
             nombre :=
               if q.nombre.isEmpty && !rep.nombre.isEmpty then formatearNombre rep.nombre
               else q.nombre } :: resto)
         else q :: actualizarConOsce resto rep) from rfl, if_neg (by simp [hq])]
      by_cases hqd : (q.dni == d) = true
      · rw [buscarPersona_cons_pos q _ d hqd, buscarPersona_cons_pos q resto d hqd]
      · rw [buscarPersona_cons_neg q _ d (by simpa using hqd),
          buscarPersona_cons_neg q resto d (by simpa using hqd), ih]

theorem buscarPersona_append (m1 m2 : List Persona) (d : Str) :
    buscarPersona (m1 ++ m2) d =
      match buscarPersona m1 d with
      | some p => some p
      | none => buscarPersona m2 d := by
  induction m1 with
  | nil => simp [buscarPersona, List.find?]
  | cons q resto ih =>
    rw [List.cons_append]
    by_cases hq : (q.dni == d) = true
    · rw [buscarPersona_cons_pos q _ d hq, buscarPersona_cons_pos q resto d hq]
    · rw [buscarPersona_cons_neg q _ d (by simpa using hq),
        buscarPersona_cons_neg q resto d (by simpa using hq), ih]

theorem pasoOsce_otro (rs : Str) (rep : Representante) (d : Str) (hr : rep.dni ≠ d)
    (m : List Persona) :
    buscarPersona (pasoOsce rs m rep) d = buscarPersona m d := by
  unfold pasoOsce
  split
  · exact buscarPersona_actualizar_otro rep d hr m
  · rw [buscarPersona_append]
    cases hb : buscarPersona m d with
    | some p => rfl
    | none =>
      rw [buscarPersona_cons_neg _ [] d (by simpa [personaDesdeOsce] using hr)]
      rfl

theorem osceFold_sin_d (rs : Str) (d : Str) :
    ∀ (reps : List Representante) (m : List Persona),
      (∀ rep ∈ reps, rep.dni ≠ d) →
      buscarPersona (reps.foldl (pasoOsce rs) m) d = buscarPersona m d := by
  intro reps
  induction reps with
  | nil => intro m _; rfl
  | cons rep resto ih =>
    intro m hne
    simp only [List.foldl_cons]
    rw [ih _ (fun r hrm => hne r (List.mem_cons_of_mem rep hrm)),
      pasoOsce_otro rs rep d (hne rep (List.mem_cons_self rep resto)) m]

theorem osceFold_unico (rs : Str) (d n : Str) (hn : n ≠ []) :
    ∀ (reps : List Representante) (m : List Persona) (p : Persona),
      buscarPersona m d = some p → p.nombre = [] →
      reps.filter (fun r => r.dni == d) = [{ dni := d, nombre := n }] →
      buscarPersona (reps.foldl (pasoOsce rs) m) d =
        some { p with
          fuentes := p.fuentes ++ ["OSCE".toList],
          nombre := formatearNombre n } := by
  intro reps
  induction reps with
  | nil =>
    intro m p _ _ hf
    simp at hf
  | cons rep resto ih =>
    intro m p hm hpnom hf
    simp only [List.foldl_cons]
    by_cases hr : rep.dni = d
    · have hrb : (rep.dni == d) = true := by simpa using hr
      rw [List.filter_cons, if_pos hrb] at hf
      simp only [List.cons_eq_cons] at hf
      obtain ⟨hrep, hresto⟩ := hf
      have hresto2 : ∀ r ∈ resto, r.dni ≠ d := by
        intro r hrm hcontra
        have : r ∈ resto.filter (fun r => r.dni == d) :=
          List.mem_filter.mpr ⟨hrm, by simpa using hcontra⟩
        rw [hresto] at this
        simp at this
      rw [osceFold_sin_d rs d resto _ hresto2]
      have hpaso : buscarPersona (pasoOsce rs m rep) d =
          some { p with
            fuentes := p.fuentes ++ ["OSCE".toList],
            nombre :=
              if p.nombre.isEmpty && !rep.nombre.isEmpty then formatearNombre rep.nombre
              else p.nombre } := by
        unfold pasoOsce
        rw [show rep.dni = d from hr, hm]
        simp only [Option.isSome_some, if_true]
        exact buscarPersona_actualizar_mismo rep d hr m p hm
      rw [hpaso]
      have hrnom : rep.nombre = n := by rw [hrep]
      rw [hrnom, hpnom]
      have hcond : (([] : Str).isEmpty && !n.isEmpty) = true := by
        cases n with
        | nil => exact absurd rfl hn
        | cons a l => rfl
      rw [hcond]
      simp
    · have hrb : (rep.dni == d) = false := by simpa using hr
      rw [List.filter_cons, if_neg (by simp [hrb])] at hf
      exact ih (pasoOsce rs m rep) p
        (by rw [pasoOsce_otro rs rep d hr m]; exact hm) hpnom hf

/-- C8: when an identifier is reported by both sources, every SUNAT
tuple for it carries an empty name, and the OSCE tuples for it are
exactly one tuple with a non-empty name, the merged record carries the
formatted OSCE name and its source-tag list is exactly SUNAT followed
by OSCE — first-non-empty-wins resolution with union of corroborating
sources. -/
theorem c8_nombre_y_fuentes (ds dos : DatosFuente) (d n : Str)
    (hd : d ∈ ds.representantes.map (fun r => r.dni))
    (hvacio : ∀ rep ∈ ds.representantes, rep.dni = d → rep.nombre = [])
    (ho : dos.representantes.filter (fun r => r.dni == d) = [{ dni := d, nombre := n }])
    (hn : n ≠ []) :
    buscarPersona (construirPersonas (some ds) (some dos)) d =
      some { dni := d, nombre := formatearNombre n,
             fuentes := ["SUNAT".toList, "OSCE".toList],
             razonSocial := ds.razonSocial } := by
  have h1 := sunatFold_presente ds.razonSocial d ds.representantes [] hvacio hd
  have h2 := osceFold_unico dos.razonSocial d n hn dos.representantes
    (ds.representantes.foldl
      (fun m rep => fijarPersona m (personaDesdeSunat ds.razonSocial rep)) [])
    (personaSunatVacia d ds.razonSocial) h1 rfl ho
  show buscarPersona
      (dos.representantes.foldl (pasoOsce dos.razonSocial)
        (ds.representantes.foldl
          (fun m rep => fijarPersona m (personaDesdeSunat ds.razonSocial rep)) [])) d = _
  rw [h2]
  rfl

/-- C8, witness: the merged record for the shared identifier carries
the formatted OSCE name and both source tags. -/
theorem c8_testigo :
    buscarPersona (construirPersonas (some fuenteSunatC8) (some fuenteOsceC8))
        ("33333333".toList) =
      some { dni := "33333333".toList,
             nombre := formatearNombre ("luna torres rosa maria".toList),
             fuentes := ["SUNAT".toList, "OSCE".toList],
             razonSocial := "ACME SAC".toList } :=
  c8_nombre_y_fuentes fuenteSunatC8 fuenteOsceC8 ("33333333".toList)
    ("luna torres rosa maria".toList) (by decide) (by decide) (by decide) (by decide)

/-! ### Claim C7: character and collapsing lemmas -/

theorem toNat_ofNat_valido (n : Nat) (h : n.isValidChar) : (Char.ofNat n).toNat = n := by
  simp only [Char.ofNat, dif_pos h]
  rfl

theorem toUpper_no_minuscula (c : Char) :
    ¬(c.toUpper.toNat ≥ 97 ∧ c.toUpper.toNat ≤ 122) := by
  by_cases h : c.toNat ≥ 97 ∧ c.toNat ≤ 122
  · have hv : (c.toNat - 32).isValidChar := by
      left
      have := h.2
      omega
    have h2 : c.toUpper = Char.ofNat (c.toNat - 32) := by
      show (if c.toNat ≥ 97 ∧ c.toNat ≤ 122 then Char.ofNat (c.toNat - 32) else c) = _
      rw [if_pos h]
    rw [h2, toNat_ofNat_valido _ hv]
    omega
  · have h2 : c.toUpper = c := by
      show (if c.toNat ≥ 97 ∧ c.toNat ≤ 122 then Char.ofNat (c.toNat - 32) else c) = c
      rw [if_neg h]
    rw [h2]
    exact h

theorem toUpper_idem (c : Char) : c.toUpper.toUpper = c.toUpper := by
  show (if c.toUpper.toNat ≥ 97 ∧ c.toUpper.toNat ≤ 122 then
    Char.ofNat (c.toUpper.toNat - 32) else c.toUpper) = c.toUpper
  rw [if_neg (toUpper_no_minuscula c)]

theorem colapsarAux_cons_run (p : Char → Bool) (r : Char) (a : Char) (cs : Str)
    (hp : p a = true) :
    colapsarAux p r true (a :: cs) = colapsarAux p r true cs := by
  simp [colapsarAux, hp]

theorem colapsarAux_cons_inicio (p : Char → Bool) (r : Char) (a : Char) (cs : Str)
    (hp : p a = true) :
    colapsarAux p r false (a :: cs) = r :: colapsarAux p r true cs := by
  simp [colapsarAux, hp]

theorem colapsarAux_cons_otro (p : Char → Bool) (r : Char) (a : Char) (cs : Str)
    (hp : p a = false) (b : Bool) :
    colapsarAux p r b (a :: cs) = a :: colapsarAux p r false cs := by
  simp [colapsarAux, hp]

theorem mem_colapsarAux (p : Char → Bool) (r : Char) :
    ∀ (b : Bool) (l : Str) (c : Char), c ∈ colapsarAux p r b l →
      c = r ∨ (c ∈ l ∧ p c = false) := by
  intro b l
  induction l generalizing b with
  | nil => intro c h; simp [colapsarAux] at h
  | cons a cs ih =>
    intro c h
    by_cases ha : p a = true
    · cases b with
      | true =>
        rw [colapsarAux_cons_run p r a cs ha] at h
        rcases ih true c h with h | ⟨h1, h2⟩
        · exact Or.inl h
        · exact Or.inr ⟨List.mem_cons_of_mem a h1, h2⟩
      | false =>
        rw [colapsarAux_cons_inicio p r a cs ha] at h
        rcases List.mem_cons.mp h with h | h
        · exact Or.inl h
        · rcases ih true c h with h | ⟨h1, h2⟩
          · exact Or.inl h
          · exact Or.inr ⟨List.mem_cons_of_mem a h1, h2⟩
    · rw [Bool.not_eq_true] at ha
      rw [colapsarAux_cons_otro p r a cs ha b] at h
      rcases List.mem_cons.mp h with h | h
      · subst h
        exact Or.inr ⟨List.mem_cons.mpr (Or.inl rfl), ha⟩
      · rcases ih false c h with h | ⟨h1, h2⟩
        · exact Or.inl h
        · exact Or.inr ⟨List.mem_cons_of_mem a h1, h2⟩

theorem colapsarAux_head_run (p : Char → Bool) (r : Char) :
    ∀ (l : Str) (c : Char), (colapsarAux p r true l).head? = some c → p c = false := by
  intro l
  induction l with
  | nil => intro c h; simp [colapsarAux] at h
  | cons a cs ih =>
    intro c h
    by_cases ha : p a = true
    · rw [colapsarAux_cons_run p r a cs ha] at h
      exact ih c h
    · rw [Bool.not_eq_true] at ha
      rw [colapsarAux_cons_otro p r a cs ha true, List.head?_cons, Option.some_inj] at h
      rw [← h]
      exact ha

theorem colapsarAux_head_inicio (p : Char → Bool) (r : Char) :
    ∀ (l : Str) (c : Char), (colapsarAux p r false l).head? = some c →
      c = r ∨ l.head? = some c := by
  intro l c h
  cases l with
  | nil => simp [colapsarAux] at h
  | cons a cs =>
    by_cases ha : p a = true
    · rw [colapsarAux_cons_inicio p r a cs ha, List.head?_cons, Option.some_inj] at h
      exact Or.inl h.symm
    · rw [Bool.not_eq_true] at ha
      rw [colapsarAux_cons_otro p r a cs ha false, List.head?_cons] at h
      exact Or.inr h

theorem colapsarAux_true_eq_false (p : Char → Bool) (r : Char) (l : Str)
    (h : ∀ c, l.head? = some c → p c = false) :
    colapsarAux p r true l = colapsarAux p r false l := by
  cases l with
  | nil => rfl
  | cons a cs =>
    have ha := h a rfl
    rw [colapsarAux_cons_otro p r a cs ha true, colapsarAux_cons_otro p r a cs ha false]

theorem colapsarAux_append_fin (p : Char → Bool) (r : Char) (c : Char)
    (hc : p c = false) :
    ∀ (l : Str) (b : Bool),
      colapsarAux p r b (l ++ [c]) = colapsarAux p r b l ++ [c] := by
  intro l
  induction l with
  | nil =>
    intro b
    rw [List.nil_append, colapsarAux_cons_otro p r c [] hc b]
    rfl
  | cons a cs ih =>
    intro b
    rw [List.cons_append]
    by_cases ha : p a = true
    · cases b with
      | true =>
        rw [colapsarAux_cons_run p r a _ ha, colapsarAux_cons_run p r a cs ha, ih true]
      | false =>
        rw [colapsarAux_cons_inicio p r a _ ha, colapsarAux_cons_inicio p r a cs ha,
          ih true, List.cons_append]
    · rw [Bool.not_eq_true] at ha
      rw [colapsarAux_cons_otro p r a _ ha b, colapsarAux_cons_otro p r a cs ha b,
        ih false, List.cons_append]

theorem colapsarAux_id (p : Char → Bool) (r : Char) :
    ∀ (l : Str),
      l.Chain' (fun a b => ¬(p a = true ∧ p b = true)) →
      (∀ c ∈ l, p c = true → c = r) →
      colapsarAux p r false l = l := by
  intro l
  induction l with
  | nil => intro _ _; rfl
  | cons a cs ih =>
    intro hchain hr
    have htail : cs.Chain' (fun a b => ¬(p a = true ∧ p b = true)) :=
      (List.chain'_cons'.mp hchain).2
    by_cases ha : p a = true
    · have har : a = r := hr a (List.mem_cons_self a cs) ha
      have hhead : ∀ c, cs.head? = some c → p c = false := by
        intro c hc
        have h2 := (List.chain'_cons'.mp hchain).1 c hc
        cases hpc : p c with
        | false => rfl
        | true => exact absurd ⟨ha, hpc⟩ h2
      rw [colapsarAux_cons_inicio p r a cs ha, colapsarAux_true_eq_false p r cs hhead,
        ih htail (fun c hc hpc => hr c (List.mem_cons_of_mem a hc) hpc), har]
    · rw [Bool.not_eq_true] at ha
      rw [colapsarAux_cons_otro p r a cs ha false,
        ih htail (fun c hc hpc => hr c (List.mem_cons_of_mem a hc) hpc)]

/-! ### Claim C7: trimming and splitting lemmas -/

theorem head?_dropWhile (p : Char → Bool) :
    ∀ (l : Str) (c : Char), (l.dropWhile p).head? = some c → p c = false := by
  intro l
  induction l with
  | nil => intro c h; simp at h
  | cons a cs ih =>
    intro c h
    rw [List.dropWhile_cons] at h
    by_cases ha : p a = true
    · rw [if_pos ha] at h
      exact ih c h
    · rw [Bool.not_eq_true] at ha
      rw [if_neg (by simp [ha]), List.head?_cons, Option.some_inj] at h
      rw [← h]
      exact ha

theorem dropWhile_id_de_head (p : Char → Bool) (l : Str)
    (h : ∀ c, l.head? = some c → p c = false) : l.dropWhile p = l := by
  cases l with
  | nil => rfl
  | cons a cs =>
    rw [List.dropWhile_cons, if_neg (by simp [h a rfl])]

theorem getLast?_dropWhile (p : Char → Bool) :
    ∀ (l : Str), l.dropWhile p ≠ [] → (l.dropWhile p).getLast? = l.getLast? := by
  intro l
  induction l with
  | nil => intro h; simp at h
  | cons a cs ih =>
    intro h
    rw [List.dropWhile_cons]
    by_cases ha : p a = true
    · rw [List.dropWhile_cons, if_pos ha] at h
      rw [if_pos ha, ih h]
      cases cs with
      | nil => simp [List.dropWhile] at h
      | cons b l2 => rw [List.getLast?_cons_cons]
    · rw [if_neg (by simp [ha])]

theorem mem_recortar (l : Str) (c : Char) (h : c ∈ recortar l) : c ∈ l := by
  unfold recortar at h
  rw [List.mem_reverse] at h
  have h2 := (List.dropWhile_suffix esEspacio).subset h
  rw [List.mem_reverse] at h2
  exact (List.dropWhile_suffix esEspacio).subset h2

theorem recortar_head (l : Str) (c : Char) (h : (recortar l).head? = some c) :
    esEspacio c = false := by
  unfold recortar at h
  rw [List.head?_reverse] at h
  have hne : (l.dropWhile esEspacio).reverse.dropWhile esEspacio ≠ [] := by
    intro hnil
    rw [hnil] at h
    simp at h
  rw [getLast?_dropWhile esEspacio _ hne, List.getLast?_reverse] at h
  exact head?_dropWhile esEspacio _ c h

theorem recortar_last (l : Str) (c : Char) (h : (recortar l).getLast? = some c) :
    esEspacio c = false := by
  unfold recortar at h
  rw [List.getLast?_reverse] at h
  exact head?_dropWhile esEspacio _ c h

theorem recortar_id (l : Str)
    (h1 : ∀ c, l.head? = some c → esEspacio c = false)
    (h2 : ∀ c, l.getLast? = some c → esEspacio c = false) : recortar l = l := by
  unfold recortar
  rw [dropWhile_id_de_head esEspacio l h1]
  rw [dropWhile_id_de_head esEspacio l.reverse (by
    intro c hc
    rw [List.head?_reverse] at hc
    exact h2 c hc)]
  exact List.reverse_reverse l

theorem recortar_cons_espacio (q : Str) : recortar (' ' :: q) = recortar q := by
  unfold recortar
  rw [List.dropWhile_cons, if_pos (by decide)]

theorem recortar_chain (R : Char → Char → Prop)
    (l : Str) (h : l.Chain' R) : (recortar l).Chain' R := by
  unfold recortar
  rw [List.chain'_reverse]
  have h1 : (l.dropWhile esEspacio).Chain' R :=
    h.suffix (List.dropWhile_suffix esEspacio)
  have h2 : ((l.dropWhile esEspacio).reverse).Chain' (flip R) := by
    rw [List.chain'_reverse]
    have : (fun a b => flip (flip R) a b) = R := rfl
    exact h1
  exact h2.suffix (List.dropWhile_suffix esEspacio)

theorem separarEn_ne_nil (s : Char) : ∀ (l : Str), separarEn s l ≠ [] := by
  intro l
  cases l with
  | nil => simp [separarEn]
  | cons c cs =>
    by_cases hc : (c == s) = true
    · simp [separarEn, hc]
    · simp only [separarEn, hc, Bool.false_eq_true, if_false]
      cases separarEn s cs <;> simp

theorem separarEn_cons_sep (s : Char) (cs : Str) :
    separarEn s (s :: cs) = [] :: separarEn s cs := by
  simp [separarEn]

theorem separarEn_cons_otro (s c : Char) (cs : Str) (hc : (c == s) = false) :
    separarEn s (c :: cs) =
      (c :: (separarEn s cs).headD []) :: (separarEn s cs).tail := by
  simp only [separarEn, hc, Bool.false_eq_true, if_false]
  cases h : separarEn s cs with
  | nil => exact absurd h (separarEn_ne_nil s cs)
  | cons t ts => rfl

theorem mem_separarEn (s : Char) :
    ∀ (l : Str) (w : Str), w ∈ separarEn s l → ∀ c ∈ w, c ∈ l := by
  intro l
  induction l with
  | nil =>
    intro w hw c hc
    simp [separarEn] at hw
    rw [hw] at hc
    simp at hc
  | cons a cs ih =>
    intro w hw c hc
    by_cases ha : (a == s) = true
    · rw [show a = s by simpa using ha, separarEn_cons_sep] at hw
      rcases List.mem_cons.mp hw with rfl | hw
      · simp at hc
      · exact List.mem_cons_of_mem a (ih w hw c hc)
    · rw [Bool.not_eq_true] at ha
      rw [separarEn_cons_otro s a cs ha] at hw
      rcases List.mem_cons.mp hw with rfl | hw
      · rcases List.mem_cons.mp hc with rfl | hc
        · exact List.mem_cons.mpr (Or.inl rfl)
        · cases hsep : separarEn s cs with
          | nil => exact absurd hsep (separarEn_ne_nil s cs)
          | cons t ts =>
            rw [hsep] at hc
            exact List.mem_cons_of_mem a
              (ih t (by rw [hsep]; exact List.mem_cons.mpr (Or.inl rfl)) c hc)
      · cases hsep : separarEn s cs with
        | nil => exact absurd hsep (separarEn_ne_nil s cs)
        | cons t ts =>
          rw [hsep] at hw
          exact List.mem_cons_of_mem a
            (ih w (by rw [hsep]; exact List.mem_cons_of_mem t hw) c hc)

theorem separarEn_sin_sep (s : Char) :
    ∀ (l : Str) (w : Str), w ∈ separarEn s l → ∀ c ∈ w, (c == s) = false := by
  intro l
  induction l with
  | nil =>
    intro w hw c hc
    simp [separarEn] at hw
    rw [hw] at hc
    simp at hc
  | cons a cs ih =>
    intro w hw c hc
    by_cases ha : (a == s) = true
    · rw [show a = s by simpa using ha, separarEn_cons_sep] at hw
      rcases List.mem_cons.mp hw with rfl | hw
      · simp at hc
      · exact ih w hw c hc
    · rw [Bool.not_eq_true] at ha
      rw [separarEn_cons_otro s a cs ha] at hw
      rcases List.mem_cons.mp hw with rfl | hw
      · rcases List.mem_cons.mp hc with rfl | hc
        · exact ha
        · cases hsep : separarEn s cs with
          | nil => exact absurd hsep (separarEn_ne_nil s cs)
          | cons t ts =>
            rw [hsep] at hc
            exact ih t (by rw [hsep]; exact List.mem_cons.mpr (Or.inl rfl)) c hc
      · cases hsep : separarEn s cs with
        | nil => exact absurd hsep (separarEn_ne_nil s cs)
        | cons t ts =>
          rw [hsep] at hw
          exact ih w (by rw [hsep]; exact List.mem_cons_of_mem t hw) c hc

theorem separarEn_head (s : Char) :
    ∀ (l : Str) (t : Str) (ts : List Str), separarEn s l = t :: ts →
      ∀ c, t.head? = some c → l.head? = some c := by
  intro l t ts hsep c hc
  cases l with
  | nil =>
    simp [separarEn] at hsep
    rw [hsep.1] at hc
    simp at hc
  | cons a cs =>
    by_cases ha : (a == s) = true
    · rw [show a = s by simpa using ha, separarEn_cons_sep] at hsep
      have : t = [] := by
        have := hsep
        simp only [List.cons_eq_cons] at this
        exact this.1.symm
      rw [this] at hc
      simp at hc
    · rw [Bool.not_eq_true] at ha
      rw [separarEn_cons_otro s a cs ha] at hsep
      simp only [List.cons_eq_cons] at hsep
      rw [← hsep.1] at hc
      simp only [List.head?_cons, Option.some_inj] at hc
      rw [← hc]
      rfl

theorem separarEn_chain (s : Char) (R : Char → Char → Prop) :
    ∀ (l : Str), l.Chain' R → ∀ w ∈ separarEn s l, w.Chain' R := by
  intro l
  induction l with
  | nil =>
    intro _ w hw
    simp [separarEn] at hw
    rw [hw]
    exact List.chain'_nil
  | cons a cs ih =>
    intro hchain w hw
    have htail : cs.Chain' R := (List.chain'_cons'.mp hchain).2
    by_cases ha : (a == s) = true
    · rw [show a = s by simpa using ha, separarEn_cons_sep] at hw
      rcases List.mem_cons.mp hw with rfl | hw
      · exact List.chain'_nil
      · exact ih htail w hw
    · rw [Bool.not_eq_true] at ha
      rw [separarEn_cons_otro s a cs ha] at hw
      cases hsep : separarEn s cs with
      | nil => exact absurd hsep (separarEn_ne_nil s cs)
      | cons t ts =>
        rw [hsep] at hw
        simp only [List.headD_cons, List.tail_cons] at hw
        rcases List.mem_cons.mp hw with rfl | hw
        · rw [List.chain'_cons']
          constructor
          · intro y hy
            exact (List.chain'_cons'.mp hchain).1 y (separarEn_head s cs t ts hsep y hy)
          · exact ih htail t (by rw [hsep]; exact List.mem_cons.mpr (Or.inl rfl))
        · exact ih htail w (by rw [hsep]; exact List.mem_cons_of_mem t hw)

theorem separarEn_sin_vacias_aux (s : Char) :
    ∀ (l : Str),
      (∀ c, l.getLast? = some c → c ≠ s) →
      l.Chain' (fun a b => ¬(a = s ∧ b = s)) →
      ∀ w ∈ (separarEn s l).tail, w ≠ [] := by
  intro l
  induction l with
  | nil => intro _ _ w hw; simp [separarEn] at hw
  | cons a cs ih =>
    intro hlast hchain w hw
    by_cases ha : (a == s) = true
    · have has : a = s := by simpa using ha
      rw [has, separarEn_cons_sep, List.tail_cons] at hw
      cases cs with
      | nil => exact absurd has (hlast a rfl)
      | cons b cs2 =>
        have hbs : b ≠ s := by
          have hrel := (List.chain'_cons'.mp hchain).1 b rfl
          intro hb
          rw [has] at hrel
          exact hrel ⟨rfl, hb⟩
        cases hsep : separarEn s (b :: cs2) with
        | nil => exact absurd hsep (separarEn_ne_nil s _)
        | cons t ts =>
          rw [hsep] at hw
          rcases List.mem_cons.mp hw with rfl | hw2
          · rw [separarEn_cons_otro s b cs2 (by simpa using hbs)] at hsep
            simp only [List.cons_eq_cons] at hsep
            rw [← hsep.1]
            simp
          · refine ih (fun c hc => hlast c ?_) (List.chain'_cons'.mp hchain).2 w ?_
            · rw [List.getLast?_cons_cons]
              exact hc
            · rw [hsep, List.tail_cons]
              exact hw2
    · rw [Bool.not_eq_true] at ha
      rw [separarEn_cons_otro s a cs ha, List.tail_cons] at hw
      cases cs with
      | nil => simp [separarEn] at hw
      | cons b cs2 =>
        refine ih (fun c hc => hlast c ?_) (List.chain'_cons'.mp hchain).2 w hw
        rw [List.getLast?_cons_cons]
        exact hc

theorem separarEn_sin_vacias (s : Char) (l : Str)
    (hhead : ∀ c, l.head? = some c → c ≠ s)
    (hlast : ∀ c, l.getLast? = some c → c ≠ s)
    (hchain : l.Chain' (fun a b => ¬(a = s ∧ b = s))) :
    ∀ w ∈ separarEn s l, l ≠ [] → w ≠ [] := by
  intro w hw hne
  cases l with
  | nil => exact absurd rfl hne
  | cons a cs =>
    have has : a ≠ s := hhead a rfl
    rw [separarEn_cons_otro s a cs (by simpa using has)] at hw
    rcases List.mem_cons.mp hw with rfl | hw
    · simp
    · refine separarEn_sin_vacias_aux s (a :: cs) hlast hchain w ?_
      rw [separarEn_cons_otro s a cs (by simpa using has), List.tail_cons]
      exact hw

theorem unirCon_cons_cons (sep : Str) (p q : Str) (rest : List Str) :
    unirCon sep (p :: q :: rest) = p ++ sep ++ unirCon sep (q :: rest) := rfl

theorem unirCon_separarEn (s : Char) : ∀ (l : Str), unirCon [s] (separarEn s l) = l := by
  intro l
  induction l with
  | nil => rfl
  | cons a cs ih =>
    by_cases ha : (a == s) = true
    · have has : a = s := by simpa using ha
      rw [has, separarEn_cons_sep]
      cases hsep : separarEn s cs with
      | nil => exact absurd hsep (separarEn_ne_nil s cs)
      | cons t ts =>
        rw [unirCon_cons_cons, List.nil_append]
        show s :: unirCon [s] (t :: ts) = s :: cs
        rw [← hsep, ih]
    · rw [Bool.not_eq_true] at ha
      rw [separarEn_cons_otro s a cs ha]
      cases hsep : separarEn s cs with
      | nil => exact absurd hsep (separarEn_ne_nil s cs)
      | cons t ts =>
        simp only [List.headD_cons, List.tail_cons]
        cases ts with
        | nil =>
          show a :: t = a :: cs
          have h2 := ih
          rw [hsep] at h2
          rw [show unirCon [s] [t] = t from rfl] at h2
          rw [h2]
        | cons t2 ts2 =>
          rw [unirCon_cons_cons]
          have h2 := ih
          rw [hsep, unirCon_cons_cons] at h2
          simp only [List.cons_append]
          rw [h2]

theorem separarEn_prefijo (s : Char) :
    ∀ (p : Str), (∀ c ∈ p, (c == s) = false) →
      ∀ (rest : Str), separarEn s (p ++ s :: rest) = p :: separarEn s rest := by
  intro p
  induction p with
  | nil => intro _ rest; rw [List.nil_append, separarEn_cons_sep]
  | cons c p2 ih =>
    intro hp rest
    have hc : (c == s) = false := hp c (List.mem_cons.mpr (Or.inl rfl))
    rw [List.cons_append, separarEn_cons_otro s c _ hc,
      ih (fun d hd => hp d (List.mem_cons_of_mem c hd)) rest]
    simp only [List.headD_cons, List.tail_cons]

theorem separarEn_solo (s : Char) :
    ∀ (p : Str), (∀ c ∈ p, (c == s) = false) → separarEn s p = [p] := by
  intro p
  induction p with
  | nil => intro _; rfl
  | cons c p2 ih =>
    intro hp
    rw [separarEn_cons_otro s c p2 (hp c (List.mem_cons.mpr (Or.inl rfl))),
      ih (fun d hd => hp d (List.mem_cons_of_mem c hd))]
    simp

theorem separarEn_unirCon_palabras (s : Char) :
    ∀ (ws : List Str) (w : Str), (∀ u ∈ w :: ws, ∀ c ∈ u, (c == s) = false) →
      separarEn s (unirCon [s] (w :: ws)) = w :: ws := by
  intro ws
  induction ws with
  | nil =>
    intro w h
    exact separarEn_solo s w (h w (List.mem_cons.mpr (Or.inl rfl)))
  | cons w2 ws2 ih =>
    intro w h
    rw [unirCon_cons_cons]
    have hassoc : w ++ [s] ++ unirCon [s] (w2 :: ws2) =
        w ++ (s :: unirCon [s] (w2 :: ws2)) := by
      rw [List.append_assoc]
      rfl
    rw [hassoc,
      separarEn_prefijo s w (h w (List.mem_cons.mpr (Or.inl rfl))) _,
      ih w2 (fun u hu => h u (List.mem_cons_of_mem w hu))]

theorem separarEn_unirCon_partes :
    ∀ (rest : List Str) (p : Str),
      (∀ q ∈ p :: rest, ∀ c ∈ q, (c == ',') = false) →
      separarEn ',' (unirCon [',', ' '] (p :: rest)) =
        p :: rest.map (fun q => ' ' :: q) := by
  intro rest
  induction rest with
  | nil =>
    intro p h
    show separarEn ',' p = [p]
    exact separarEn_solo ',' p (h p (List.mem_cons.mpr (Or.inl rfl)))
  | cons q rest2 ih =>
    intro p h
    rw [unirCon_cons_cons]
    have hassoc : p ++ [',', ' '] ++ unirCon [',', ' '] (q :: rest2) =
        p ++ (',' :: (' ' :: unirCon [',', ' '] (q :: rest2))) := by
      rw [List.append_assoc]
      rfl
    rw [hassoc,
      separarEn_prefijo ',' p (h p (List.mem_cons.mpr (Or.inl rfl))) _,
      separarEn_cons_otro ',' ' ' _ (by decide),
      ih q (fun u hu => h u (List.mem_cons_of_mem p hu))]
    simp only [List.headD_cons, List.tail_cons, List.map_cons]

theorem mem_unirCon (sep : Str) :
    ∀ (ps : List Str) (c : Char), c ∈ unirCon sep ps → c ∈ sep ∨ ∃ p ∈ ps, c ∈ p := by
  intro ps
  induction ps with
  | nil => intro c h; simp [unirCon] at h
  | cons p rest ih =>
    intro c h
    cases rest with
    | nil => exact Or.inr ⟨p, List.mem_cons.mpr (Or.inl rfl), h⟩
    | cons q rest2 =>
      rw [unirCon_cons_cons] at h
      rcases List.mem_append.mp h with h | h
      · rcases List.mem_append.mp h with h | h
        · exact Or.inr ⟨p, List.mem_cons.mpr (Or.inl rfl), h⟩
        · exact Or.inl h
      · rcases ih c h with h | ⟨u, hu, hc⟩
        · exact Or.inl h
        · exact Or.inr ⟨u, List.mem_cons_of_mem p hu, hc⟩

theorem unirCon_ne_nil (sep : Str) (p : Str) (rest : List Str) (hp : p ≠ []) :
    unirCon sep (p :: rest) ≠ [] := by
  cases rest with
  | nil => exact hp
  | cons q rest2 =>
    rw [unirCon_cons_cons]
    intro h
    rw [List.append_eq_nil, List.append_eq_nil] at h
    exact hp h.1.1

theorem head?_unirCon (sep : Str) (p : Str) (rest : List Str) (hp : p ≠ []) :
    (unirCon sep (p :: rest)).head? = p.head? := by
  cases rest with
  | nil => rfl
  | cons q rest2 =>
    rw [unirCon_cons_cons]
    cases p with
    | nil => exact absurd rfl hp
    | cons a p2 => simp

theorem unirCon_getLast_prop (sep : Str) (Q : Char → Prop) :
    ∀ (ps : List Str), (∀ p ∈ ps, p ≠ []) →
      (∀ p ∈ ps, ∀ c, p.getLast? = some c → Q c) →
      ∀ c, (unirCon sep ps).getLast? = some c → Q c := by
  intro ps
  induction ps with
  | nil => intro _ _ c hc; simp [unirCon] at hc
  | cons p rest ih =>
    intro hne hQ c hc
    cases rest with
    | nil => exact hQ p (List.mem_cons.mpr (Or.inl rfl)) c hc
    | cons q rest2 =>
      rw [unirCon_cons_cons, List.getLast?_append] at hc
      have hu : unirCon sep (q :: rest2) ≠ [] :=
        unirCon_ne_nil sep q rest2 (hne q (List.mem_cons_of_mem p (List.mem_cons.mpr (Or.inl rfl))))
      cases h2 : (unirCon sep (q :: rest2)).getLast? with
      | none => exact absurd (List.getLast?_eq_none_iff.mp h2) hu
      | some d =>
        rw [h2] at hc
        simp only [Option.or_some, Option.some_inj] at hc
        subst hc
        exact ih (fun u hu2 => hne u (List.mem_cons_of_mem p hu2))
          (fun u hu2 => hQ u (List.mem_cons_of_mem p hu2)) d h2

theorem map_id_de_mem (f : Char → Char) :
    ∀ (l : Str), (∀ c ∈ l, f c = c) → l.map f = l := by
  intro l
  induction l with
  | nil => intro _; rfl
  | cons a cs ih =>
    intro h
    rw [List.map_cons, h a (List.mem_cons.mpr (Or.inl rfl)),
      ih (fun c hc => h c (List.mem_cons_of_mem a hc))]

theorem chain_sin_p (p : Char → Bool) (R : Char → Char → Prop)
    (hR : ∀ a b, p a = false → R a b) :
    ∀ (l : Str), (∀ c ∈ l, p c = false) → l.Chain' R := by
  intro l
  induction l with
  | nil => intro _; exact List.chain'_nil
  | cons a cs ih =>
    intro h
    rw [List.chain'_cons']
    exact ⟨fun y _ => hR a y (h a (List.mem_cons.mpr (Or.inl rfl))),
      ih (fun c hc => h c (List.mem_cons_of_mem a hc))⟩

theorem chain_espacios_colapsar :
    ∀ (b : Bool) (l : Str), (colapsarAux esEspacio ' ' b l).Chain' RelEspacios := by
  intro b l
  induction l generalizing b with
  | nil => exact List.chain'_nil
  | cons a cs ih =>
    by_cases ha : esEspacio a = true
    · cases b with
      | true =>
        rw [colapsarAux_cons_run esEspacio ' ' a cs ha]
        exact ih true
      | false =>
        rw [colapsarAux_cons_inicio esEspacio ' ' a cs ha]
        rw [List.chain'_cons']
        refine ⟨?_, ih true⟩
        intro y hy
        intro hcontra
        have := colapsarAux_head_run esEspacio ' ' cs y hy
        rw [this] at hcontra
        cases hcontra.2
    · rw [Bool.not_eq_true] at ha
      rw [colapsarAux_cons_otro esEspacio ' ' a cs ha b]
      rw [List.chain'_cons']
      refine ⟨?_, ih false⟩
      intro y _
      intro hcontra
      rw [ha] at hcontra
      cases hcontra.1

theorem chain_espacios_colapsar_comas :
    ∀ (b : Bool) (l : Str), l.Chain' RelEspacios →
      (colapsarAux (fun c => c == ',') ',' b l).Chain' RelEspacios := by
  intro b l
  induction l generalizing b with
  | nil => intro _; exact List.chain'_nil
  | cons a cs ih =>
    intro hchain
    have htail : cs.Chain' RelEspacios := (List.chain'_cons'.mp hchain).2
    by_cases ha : (a == ',') = true
    · cases b with
      | true =>
        rw [colapsarAux_cons_run _ ',' a cs ha]
        exact ih true htail
      | false =>
        rw [colapsarAux_cons_inicio _ ',' a cs ha]
        rw [List.chain'_cons']
        refine ⟨?_, ih true htail⟩
        intro y _
        intro hcontra
        cases hcontra.1
    · rw [Bool.not_eq_true] at ha
      rw [colapsarAux_cons_otro _ ',' a cs ha b]
      rw [List.chain'_cons']
      refine ⟨?_, ih false htail⟩
      intro y hy
      rcases colapsarAux_head_inicio _ ',' cs y hy with rfl | hy2
      · intro hcontra
        cases hcontra.2
      · exact (List.chain'_cons'.mp hchain).1 y hy2

theorem coma_en_colapsar :
    ∀ (l : Str), ',' ∈ l → ',' ∈ colapsarAux (fun c => c == ',') ',' false l := by
  intro l
  induction l with
  | nil => intro h; simp at h
  | cons a cs ih =>
    intro h
    by_cases ha : (a == ',') = true
    · rw [colapsarAux_cons_inicio _ ',' a cs ha]
      exact List.mem_cons.mpr (Or.inl rfl)
    · rw [Bool.not_eq_true] at ha
      rw [colapsarAux_cons_otro _ ',' a cs ha false]
      rcases List.mem_cons.mp h with h | h
      · rw [← h] at ha
        simp at ha
      · exact List.mem_cons_of_mem a (ih h)

theorem colapsar_espacios_head (l : Str)
    (h : ∀ c, l.head? = some c → esEspacio c = false) :
    ∀ c, (colapsarEspacios l).head? = some c → esEspacio c = false := by
  intro c hc
  cases l with
  | nil => simp [colapsarEspacios, colapsarAux] at hc
  | cons a cs =>
    have ha := h a rfl
    unfold colapsarEspacios at hc
    rw [colapsarAux_cons_otro esEspacio ' ' a cs ha false, List.head?_cons,
      Option.some_inj] at hc
    rw [← hc]
    exact ha

theorem colapsar_espacios_last (l : Str)
    (h : ∀ c, l.getLast? = some c → esEspacio c = false) :
    ∀ c, (colapsarEspacios l).getLast? = some c → esEspacio c = false := by
  intro c hc
  rcases List.eq_nil_or_concat l with rfl | ⟨l2, d, rfl⟩
  · simp [colapsarEspacios, colapsarAux] at hc
  · rw [List.concat_eq_append] at hc h
    have hd : esEspacio d = false := h d (List.getLast?_concat l2)
    unfold colapsarEspacios at hc
    rw [colapsarAux_append_fin esEspacio ' ' d hd l2 false, List.getLast?_concat,
      Option.some_inj] at hc
    rw [← hc]
    exact hd

theorem limpiar_upper (l : Str) : ∀ c ∈ limpiarNombre l, Char.toUpper c = c := by
  intro c hc
  unfold limpiarNombre colapsarComas colapsarEspacios at hc
  rcases mem_colapsarAux _ ',' false _ c hc with rfl | ⟨hc2, -⟩
  · decide
  · rcases mem_colapsarAux esEspacio ' ' false _ c hc2 with rfl | ⟨hc3, -⟩
    · decide
    · have hc4 := mem_recortar _ c hc3
      rw [List.mem_map] at hc4
      obtain ⟨d, -, rfl⟩ := hc4
      exact toUpper_idem d

theorem limpiar_espacios (l : Str) :
    ∀ c ∈ limpiarNombre l, esEspacio c = true → c = ' ' := by
  intro c hc hws
  unfold limpiarNombre colapsarComas colapsarEspacios at hc
  rcases mem_colapsarAux _ ',' false _ c hc with rfl | ⟨hc2, -⟩
  · cases hws
  · rcases mem_colapsarAux esEspacio ' ' false _ c hc2 with rfl | ⟨-, hns⟩
    · rfl
    · rw [hns] at hws
      cases hws

theorem limpiar_chain (l : Str) : (limpiarNombre l).Chain' RelEspacios := by
  unfold limpiarNombre colapsarComas colapsarEspacios
  exact chain_espacios_colapsar_comas false _ (chain_espacios_colapsar false _)

theorem limpiar_sin_comas (l : Str)
    (h : (limpiarNombre l).contains ',' = false) :
    limpiarNombre l = colapsarEspacios (recortar (l.map Char.toUpper)) := by
  have hnomem : ',' ∉ limpiarNombre l := by
    intro hmem
    have h2 : (limpiarNombre l).contains ',' = true := by simpa using hmem
    rw [h] at h2
    cases h2
  have hno : ∀ c ∈ colapsarEspacios (recortar (l.map Char.toUpper)), (c == ',') = false := by
    intro c hc
    by_cases hcc : (c == ',') = true
    · have hc2 : c = ',' := by simpa using hcc
      subst hc2
      exact absurd (coma_en_colapsar _ hc) hnomem
    · rwa [Bool.not_eq_true] at hcc
  show colapsarComas (colapsarEspacios (recortar (l.map Char.toUpper))) = _
  unfold colapsarComas
  exact colapsarAux_id (fun c => c == ',') ','
    (colapsarEspacios (recortar (l.map Char.toUpper)))
    (chain_sin_p (fun c => c == ',') _
      (fun a b ha => by rw [ha]; intro hcon; cases hcon.1) _ hno)
    (fun c _ hcc => by simpa using hcc)

theorem limpiar_head_sin_comas (l : Str)
    (h : (limpiarNombre l).contains ',' = false) :
    ∀ c, (limpiarNombre l).head? = some c → esEspacio c = false := by
  rw [limpiar_sin_comas l h]
  exact colapsar_espacios_head _ (fun c hc => recortar_head _ c hc)

theorem limpiar_last_sin_comas (l : Str)
    (h : (limpiarNombre l).contains ',' = false) :
    ∀ c, (limpiarNombre l).getLast? = some c → esEspacio c = false := by
  rw [limpiar_sin_comas l h]
  exact colapsar_espacios_last _ (fun c hc => recortar_last _ c hc)

theorem parteBuena_ne_nil (p : Str) (h : ParteBuena p) : p ≠ [] := by
  obtain ⟨ws, hne, hws, rfl⟩ := h
  cases ws with
  | nil => exact absurd rfl hne
  | cons w rest => exact unirCon_ne_nil [' '] w rest (hws w (List.mem_cons.mpr (Or.inl rfl))).1

theorem parteBuena_chars (p : Str) (h : ParteBuena p) :
    ∀ c ∈ p, Char.toUpper c = c ∧ (esEspacio c = true → c = ' ') ∧ (c == ',') = false := by
  obtain ⟨ws, hne, hws, rfl⟩ := h
  intro c hc
  rcases mem_unirCon [' '] ws c hc with hsep | ⟨w, hw, hcw⟩
  · have : c = ' ' := by simpa using hsep
    subst this
    refine ⟨by decide, fun _ => rfl, by decide⟩
  · obtain ⟨h1, h2, h3⟩ := (hws w hw).2 c hcw
    exact ⟨h1, fun hws2 => absurd hws2 (by rw [h2]; simp), h3⟩

theorem parteBuena_head (p : Str) (h : ParteBuena p) :
    ∀ c, p.head? = some c → esEspacio c = false := by
  obtain ⟨ws, hne, hws, rfl⟩ := h
  intro c hc
  cases ws with
  | nil => exact absurd rfl hne
  | cons w rest =>
    rw [head?_unirCon [' '] w rest (hws w (List.mem_cons.mpr (Or.inl rfl))).1] at hc
    have hcw : c ∈ w := List.mem_of_mem_head? (by simp [hc])
    exact ((hws w (List.mem_cons.mpr (Or.inl rfl))).2 c hcw).2.1

theorem parteBuena_last (p : Str) (h : ParteBuena p) :
    ∀ c, p.getLast? = some c → esEspacio c = false := by
  obtain ⟨ws, hne, hws, rfl⟩ := h
  exact unirCon_getLast_prop [' '] (fun c => esEspacio c = false) ws
    (fun w hw => (hws w hw).1)
    (fun w hw c hc =>
      ((hws w hw).2 c (List.mem_of_mem_getLast? (by simp [hc]))).2.1)

theorem parteBuena_sin_comas (p : Str) (h : ParteBuena p) :
    ∀ c ∈ p, (c == ',') = false := by
  intro c hc
  exact (parteBuena_chars p h c hc).2.2

theorem chain_espacios_unirCon_palabras :
    ∀ (ws : List Str), (∀ w ∈ ws, PalabraBuena w) →
      (unirCon [' '] ws).Chain' RelEspacios := by
  intro ws
  induction ws with
  | nil => intro _; exact List.chain'_nil
  | cons w rest ih =>
    intro h
    have hw := h w (List.mem_cons.mpr (Or.inl rfl))
    cases rest with
    | nil =>
      show w.Chain' RelEspacios
      exact chain_sin_p esEspacio RelEspacios
        (fun a b ha => fun hcon => by rw [ha] at hcon; cases hcon.1) w
        (fun c hc => (hw.2 c hc).2.1)
    | cons w2 rest2 =>
      rw [unirCon_cons_cons, List.chain'_append]
      refine ⟨?_, ih (fun u hu => h u (List.mem_cons_of_mem w hu)), ?_⟩
      · rw [List.chain'_append]
        refine ⟨?_, List.chain'_singleton ' ', ?_⟩
        · exact chain_sin_p esEspacio RelEspacios
            (fun a b ha => fun hcon => by rw [ha] at hcon; cases hcon.1) w
            (fun c hc => (hw.2 c hc).2.1)
        · intro x hx y hy
          simp only [List.head?_cons, Option.mem_def, Option.some_inj] at hy
          intro hcon
          have hxw : x ∈ w := List.mem_of_mem_getLast? (by simpa using hx)
          rw [(hw.2 x hxw).2.1] at hcon
          cases hcon.1
      · intro x hx y hy
        rw [List.getLast?_concat] at hx
        simp only [Option.mem_def, Option.some_inj] at hx
        intro hcon
        have hw2 := h w2 (List.mem_cons_of_mem w (List.mem_cons.mpr (Or.inl rfl)))
        rw [head?_unirCon [' '] w2 rest2 hw2.1] at hy
        have hyw : y ∈ w2 := List.mem_of_mem_head? (by simpa using hy)
        rw [(hw2.2 y hyw).2.1] at hcon
        cases hcon.2

theorem parteBuena_chain (p : Str) (h : ParteBuena p) : p.Chain' RelEspacios := by
  obtain ⟨ws, _, hws, rfl⟩ := h
  exact chain_espacios_unirCon_palabras ws hws

theorem chain_espacios_unirCon_partes :
    ∀ (ps : List Str), (∀ p ∈ ps, ParteBuena p) →
      (unirCon [',', ' '] ps).Chain' RelEspacios := by
  intro ps
  induction ps with
  | nil => intro _; exact List.chain'_nil
  | cons p rest ih =>
    intro h
    have hp := h p (List.mem_cons.mpr (Or.inl rfl))
    cases rest with
    | nil => exact parteBuena_chain p hp
    | cons q rest2 =>
      rw [unirCon_cons_cons,
        show p ++ [',', ' '] ++ unirCon [',', ' '] (q :: rest2) =
          (p ++ [',']) ++ (' ' :: unirCon [',', ' '] (q :: rest2)) from by
            rw [List.append_assoc, List.append_assoc]; rfl,
        List.chain'_append]
      refine ⟨?_, ?_, ?_⟩
      · rw [List.chain'_append]
        refine ⟨parteBuena_chain p hp, List.chain'_singleton ',', ?_⟩
        intro x _ y hy
        simp only [List.head?_cons, Option.mem_def, Option.some_inj] at hy
        intro hcon
        rw [← hy] at hcon
        cases hcon.2
      · rw [List.chain'_cons']
        refine ⟨?_, ih (fun u hu => h u (List.mem_cons_of_mem p hu))⟩
        intro y hy
        have hq := h q (List.mem_cons_of_mem p (List.mem_cons.mpr (Or.inl rfl)))
        rw [head?_unirCon [',', ' '] q rest2 (parteBuena_ne_nil q hq)] at hy
        intro hcon
        rw [parteBuena_head q hq y hy] at hcon
        cases hcon.2
      · intro x hx y hy
        rw [List.getLast?_concat] at hx
        simp only [Option.mem_def, Option.some_inj] at hx
        intro hcon
        rw [← hx] at hcon
        cases hcon.1

theorem chain_comas_unirCon_partes :
    ∀ (ps : List Str), (∀ p ∈ ps, ParteBuena p) →
      (unirCon [',', ' '] ps).Chain'
        (fun a b => ¬((a == ',') = true ∧ (b == ',') = true)) := by
  intro ps
  induction ps with
  | nil => intro _; exact List.chain'_nil
  | cons p rest ih =>
    intro h
    have hp := h p (List.mem_cons.mpr (Or.inl rfl))
    cases rest with
    | nil =>
      exact chain_sin_p (fun c => c == ',') _
        (fun a b ha hcon => absurd hcon.1 (by simpa using ha)) p
        (parteBuena_sin_comas p hp)
    | cons q rest2 =>
      rw [unirCon_cons_cons,
        show p ++ [',', ' '] ++ unirCon [',', ' '] (q :: rest2) =
          (p ++ [',']) ++ (' ' :: unirCon [',', ' '] (q :: rest2)) from by
            rw [List.append_assoc, List.append_assoc]; rfl,
        List.chain'_append]
      refine ⟨?_, ?_, ?_⟩
      · rw [List.chain'_append]
        refine ⟨?_, List.chain'_singleton ',', ?_⟩
        · exact chain_sin_p (fun c => c == ',') _
            (fun a b ha hcon => absurd hcon.1 (by simpa using ha)) p
            (parteBuena_sin_comas p hp)
        · intro x hx y _
          intro hcon
          have hxp : x ∈ p := List.mem_of_mem_getLast? (by simpa using hx)
          rw [parteBuena_sin_comas p hp x hxp] at hcon
          cases hcon.1
      · rw [List.chain'_cons']
        refine ⟨?_, ih (fun u hu => h u (List.mem_cons_of_mem p hu))⟩
        intro y _
        intro hcon
        cases hcon.1
      · intro x hx y hy
        simp only [List.head?_cons, Option.mem_def, Option.some_inj] at hy
        intro hcon
        rw [← hy] at hcon
        exact absurd hcon.2 (by decide)

theorem salida_head (ps : List Str) (hps : ∀ p ∈ ps, ParteBuena p) :
    ∀ c, (unirCon [',', ' '] ps).head? = some c → esEspacio c = false := by
  intro c hc
  cases ps with
  | nil => simp [unirCon] at hc
  | cons p rest =>
    have hp := hps p (List.mem_cons.mpr (Or.inl rfl))
    rw [head?_unirCon [',', ' '] p rest (parteBuena_ne_nil p hp)] at hc
    exact parteBuena_head p hp c hc

theorem salida_last (ps : List Str) (hps : ∀ p ∈ ps, ParteBuena p) :
    ∀ c, (unirCon [',', ' '] ps).getLast? = some c → esEspacio c = false := by
  exact unirCon_getLast_prop [',', ' '] (fun c => esEspacio c = false) ps
    (fun p hp => parteBuena_ne_nil p (hps p hp))
    (fun p hp => parteBuena_last p (hps p hp))

theorem salida_limpia (ps : List Str) (hps : ∀ p ∈ ps, ParteBuena p) :
    limpiarNombre (unirCon [',', ' '] ps) = unirCon [',', ' '] ps := by
  have hchars : ∀ c ∈ unirCon [',', ' '] ps,
      Char.toUpper c = c ∧ (esEspacio c = true → c = ' ') := by
    intro c hc
    rcases mem_unirCon [',', ' '] ps c hc with hsep | ⟨p, hp, hcp⟩
    · rcases List.mem_cons.mp hsep with rfl | hsep2
      · exact ⟨by decide, fun hcon => by cases hcon⟩
      · have : c = ' ' := by simpa using hsep2
        subst this
        exact ⟨by decide, fun _ => rfl⟩
    · obtain ⟨h1, h2, -⟩ := parteBuena_chars p (hps p hp) c hcp
      exact ⟨h1, h2⟩
  unfold limpiarNombre
  rw [map_id_de_mem Char.toUpper _ (fun c hc => (hchars c hc).1)]
  rw [recortar_id _ (salida_head ps hps) (salida_last ps hps)]
  rw [show colapsarEspacios (unirCon [',', ' '] ps) = unirCon [',', ' '] ps from
    colapsarAux_id esEspacio ' ' _ (chain_espacios_unirCon_partes ps hps)
      (fun c hc hws => (hchars c hc).2 hws)]
  exact colapsarAux_id (fun c => c == ',') ',' _ (chain_comas_unirCon_partes ps hps)
    (fun c _ hcc => by simpa using hcc)

theorem palabras_buenas_de_hechos (p : Str) (hne : p ≠ [])
    (hchars : ∀ c ∈ p,
      Char.toUpper c = c ∧ (esEspacio c = true → c = ' ') ∧ (c == ',') = false)
    (hhead : ∀ c, p.head? = some c → esEspacio c = false)
    (hlast : ∀ c, p.getLast? = some c → esEspacio c = false)
    (hchain : p.Chain' RelEspacios) :
    ∀ w ∈ separarEn ' ' p, PalabraBuena w := by
  intro w hw
  constructor
  · refine separarEn_sin_vacias ' ' p ?_ ?_ ?_ w hw hne
    · intro c hc hcs
      have := hhead c hc
      rw [hcs] at this
      cases this
    · intro c hc hcs
      have := hlast c hc
      rw [hcs] at this
      cases this
    · refine hchain.imp ?_
      intro a b hab
      intro hcon
      exact hab ⟨by rw [hcon.1]; rfl, by rw [hcon.2]; rfl⟩
  · intro c hc
    have hcp : c ∈ p := mem_separarEn ' ' p w hw c hc
    have hsep := separarEn_sin_sep ' ' p w hw c hc
    obtain ⟨h1, h2, h3⟩ := hchars c hcp
    refine ⟨h1, ?_, h3⟩
    cases hws : esEspacio c with
    | false => rfl
    | true => exact absurd (h2 hws) (by simpa using hsep)

theorem parteBuena_de_hechos (p : Str) (hne : p ≠ [])
    (hchars : ∀ c ∈ p,
      Char.toUpper c = c ∧ (esEspacio c = true → c = ' ') ∧ (c == ',') = false)
    (hhead : ∀ c, p.head? = some c → esEspacio c = false)
    (hlast : ∀ c, p.getLast? = some c → esEspacio c = false)
    (hchain : p.Chain' RelEspacios) : ParteBuena p :=
  ⟨separarEn ' ' p, separarEn_ne_nil ' ' p,
    palabras_buenas_de_hechos p hne hchars hhead hlast hchain,
    (unirCon_separarEn ' ' p).symm⟩

theorem formatear_estable (ps : List Str) (hps : ∀ p ∈ ps, ParteBuena p)
    (hforma : ps = [] ∨ 2 ≤ ps.length ∨ ∃ p, ps = [p] ∧ ParteCorta p) :
    formatearNombre (unirCon [',', ' '] ps) = unirCon [',', ' '] ps := by
  rcases hforma with rfl | hlen | ⟨p, rfl, hcorta⟩
  · rfl
  · obtain ⟨p, q, rest, rfl⟩ : ∃ p q rest, ps = p :: q :: rest := by
      cases ps with
      | nil => simp at hlen
      | cons p rest0 =>
        cases rest0 with
        | nil => simp at hlen
        | cons q rest => exact ⟨p, q, rest, rfl⟩
    have hp := hps p (List.mem_cons.mpr (Or.inl rfl))
    have hone : unirCon [',', ' '] (p :: q :: rest) ≠ [] :=
      unirCon_ne_nil _ p _ (parteBuena_ne_nil p hp)
    have hlid := salida_limpia _ hps
    have hcont : (unirCon [',', ' '] (p :: q :: rest)).contains ',' = true := by
      have hmem : ',' ∈ unirCon [',', ' '] (p :: q :: rest) := by
        rw [unirCon_cons_cons]
        exact List.mem_append.mpr (Or.inl (List.mem_append.mpr (Or.inr (by simp))))
      simpa using hmem
    have hpartes : partesNombre (unirCon [',', ' '] (p :: q :: rest)) = p :: q :: rest := by
      unfold partesNombre
      rw [separarEn_unirCon_partes (q :: rest) p
        (fun u hu => parteBuena_sin_comas u (hps u hu))]
      rw [List.map_cons, List.map_map]
      rw [recortar_id p (parteBuena_head p hp) (parteBuena_last p hp)]
      have hmapa : (q :: rest).map (recortar ∘ fun x => ' ' :: x) = q :: rest := by
        have h2 : ∀ x ∈ q :: rest, (recortar ∘ fun x => ' ' :: x) x = id x := by
          intro x hx
          have hx2 := hps x (List.mem_cons_of_mem p hx)
          show recortar (' ' :: x) = x
          rw [recortar_cons_espacio,
            recortar_id x (parteBuena_head x hx2) (parteBuena_last x hx2)]
        rw [List.map_congr_left h2, List.map_id]
      rw [hmapa]
      rw [List.filter_eq_self.mpr ?_]
      intro a ha
      have hane : a ≠ [] := parteBuena_ne_nil a (hps a ha)
      simpa using hane
    unfold formatearNombre
    rw [if_neg hone]
    simp only [hlid]
    rw [if_pos hcont, hpartes]
  · have hp := hps p (List.mem_cons.mpr (Or.inl rfl))
    have hlid : limpiarNombre p = p := salida_limpia [p] hps
    have hcont : p.contains ',' = false := by
      cases hc : p.contains ',' with
      | false => rfl
      | true =>
        have hmem : ',' ∈ p := by simpa using hc
        have := parteBuena_sin_comas p hp ',' hmem
        simp at this
    show formatearNombre p = p
    unfold formatearNombre
    rw [if_neg (parteBuena_ne_nil p hp)]
    simp only [hlid]
    unfold ParteCorta at hcorta
    rw [if_neg (by rw [hcont]; simp), if_pos hcorta]

theorem formatearNombre_forma (l : Str) :
    ∃ ps, (∀ p ∈ ps, ParteBuena p) ∧
      formatearNombre l = unirCon [',', ' '] ps ∧
      (entradaDegenerada l = false →
        (ps = [] ∨ 2 ≤ ps.length ∨ ∃ p, ps = [p] ∧ ParteCorta p)) := by
  by_cases hl : l = []
  · refine ⟨[], by simp, ?_, fun _ => Or.inl rfl⟩
    rw [hl]
    rfl
  · by_cases hcont : (limpiarNombre l).contains ',' = true
    · refine ⟨partesNombre (limpiarNombre l), ?_, ?_, ?_⟩
      · intro p hp
        unfold partesNombre at hp
        rw [List.mem_filter] at hp
        obtain ⟨hp1, hp2⟩ := hp
        rw [List.mem_map] at hp1
        obtain ⟨piece, hpiece, rfl⟩ := hp1
        have hne : recortar piece ≠ [] := by simpa using hp2
        refine parteBuena_de_hechos (recortar piece) hne ?_
          (recortar_head piece) (recortar_last piece)
          (recortar_chain RelEspacios piece
            (separarEn_chain ',' RelEspacios _ (limpiar_chain l) piece hpiece))
        intro c hc
        have hcp : c ∈ piece := mem_recortar piece c hc
        have hcl : c ∈ limpiarNombre l := mem_separarEn ',' _ piece hpiece c hcp
        exact ⟨limpiar_upper l c hcl, limpiar_espacios l c hcl,
          separarEn_sin_sep ',' _ piece hpiece c hcp⟩
      · show formatearNombre l = _
        unfold formatearNombre
        rw [if_neg hl, if_pos hcont]
      · intro hdeg
        unfold entradaDegenerada at hdeg
        rw [hcont, Bool.true_and] at hdeg
        cases hpar : partesNombre (limpiarNombre l) with
        | nil => exact Or.inl rfl
        | cons p rest =>
          cases rest with
          | nil =>
            right; right
            refine ⟨p, rfl, ?_⟩
            rw [hpar] at hdeg
            unfold ParteCorta
            have := of_decide_eq_false hdeg
            omega
          | cons q rest2 =>
            right; left
            simp
    · rw [Bool.not_eq_true] at hcont
      by_cases hnil : limpiarNombre l = []
      · refine ⟨[], by simp, ?_, fun _ => Or.inl rfl⟩
        show formatearNombre l = []
        unfold formatearNombre
        rw [if_neg hl]
        simp only [hnil]
        rfl
      · have hhead := limpiar_head_sin_comas l hcont
        have hlast := limpiar_last_sin_comas l hcont
        have hnocom : ∀ c ∈ limpiarNombre l, (c == ',') = false := by
          intro c hc
          cases hcc : (c == ',') with
          | false => rfl
          | true =>
            have hc2 : c = ',' := by simpa using hcc
            subst hc2
            have : (limpiarNombre l).contains ',' = true := by simpa using hc
            rw [hcont] at this
            cases this
        have hfacts : ∀ c ∈ limpiarNombre l,
            Char.toUpper c = c ∧ (esEspacio c = true → c = ' ') ∧ (c == ',') = false :=
          fun c hc => ⟨limpiar_upper l c hc, limpiar_espacios l c hc, hnocom c hc⟩
        have hbuena : ParteBuena (limpiarNombre l) :=
          parteBuena_de_hechos _ hnil hfacts hhead hlast (limpiar_chain l)
        have hpal : ∀ w ∈ separarEn ' ' (limpiarNombre l), PalabraBuena w :=
          palabras_buenas_de_hechos _ hnil hfacts hhead hlast (limpiar_chain l)
        by_cases hlen : (separarEn ' ' (limpiarNombre l)).length ≤ 2
        · refine ⟨[limpiarNombre l], ?_, ?_, ?_⟩
          · intro p hp
            rw [List.mem_singleton] at hp
            subst hp
            exact hbuena
          · show formatearNombre l = limpiarNombre l
            unfold formatearNombre
            rw [if_neg hl, if_neg (by rw [hcont]; simp), if_pos hlen]
          · intro _
            right; right
            exact ⟨limpiarNombre l, rfl, hlen⟩
        · have hlen2 : 2 < (separarEn ' ' (limpiarNombre l)).length := by omega
          have htake : (separarEn ' ' (limpiarNombre l)).take 2 ≠ [] := by
            intro hcon
            have h2 := congrArg List.length hcon
            rw [List.length_take] at h2
            simp only [List.length_nil] at h2
            omega
          have hdrop : (separarEn ' ' (limpiarNombre l)).drop 2 ≠ [] := by
            intro hcon
            have h2 := congrArg List.length hcon
            rw [List.length_drop] at h2
            simp only [List.length_nil] at h2
            omega
          refine ⟨[unirCon [' '] ((separarEn ' ' (limpiarNombre l)).take 2),
                   unirCon [' '] ((separarEn ' ' (limpiarNombre l)).drop 2)], ?_, ?_, ?_⟩
          · intro p hp
            rcases List.mem_cons.mp hp with rfl | hp2
            · exact ⟨_, htake, fun w hw => hpal w (List.take_subset 2 _ hw), rfl⟩
            · rw [List.mem_singleton] at hp2
              subst hp2
              exact ⟨_, hdrop, fun w hw => hpal w (List.drop_subset 2 _ hw), rfl⟩
          · show formatearNombre l = _
            unfold formatearNombre
            rw [if_neg hl, if_neg (by rw [hcont]; simp), if_neg hlen]
            rfl
          · intro _
            right; left
            simp

/-! ### Claim C7 -/

/-- C7, counterexample: a name with a trailing comma is normalized in
one pass to a comma-free three-word string, and a second pass then
inserts a comma after the first two words, so normalization is not
idempotent. -/
theorem c7_contraejemplo :
    formatearNombre (formatearNombre ("A B C,".toList)) ≠
      formatearNombre ("A B C,".toList) := by
  decide

/-- C7, amended: normalization is idempotent on every input except the
degenerate ones whose cleaned form contains a comma yet comma-splits
into exactly one non-empty part of more than two words (there the first
pass strips the comma and the second pass re-inserts one). -/
theorem c7_idempotente_no_degenerada (l : Str)
    (h : entradaDegenerada l = false) :
    formatearNombre (formatearNombre l) = formatearNombre l := by
  obtain ⟨ps, hps, heq, hforma⟩ := formatearNombre_forma l
  rw [heq]
  exact formatear_estable ps hps (hforma h)

/-- C7, witness: idempotence at a concrete four-word name. -/
theorem c7_testigo :
    entradaDegenerada ("koo li jaime roberto".toList) = false ∧
    formatearNombre (formatearNombre ("koo li jaime roberto".toList)) =
      formatearNombre ("koo li jaime roberto".toList) :=
  ⟨by decide, c7_idempotente_no_degenerada ("koo li jaime roberto".toList) (by decide)⟩

end SistemaFiltro
